import Mathlib

/-!
Verification of the Agent Proof-of-Intelligence registry.

This file gives a shallow embedding of the ledger core of the repository:
the program-derived address convention, the registry / agent / challenge
accounts, the challenge state machine with its reputation engine, the
Merkle audit batching and proof verification, and the client-side answer
hashing (SHA-256 hex digests).

The on-chain Anchor program (programs/agent-registry) and the Python
Merkle module (agent/poi/merkle_audit.py) are not part of the source
tree available here; those components are modelled from the specification
(sections 3, 4 and 8), as marked on each definition.  The client scripts
and tests (src/scripts, src/tests, src/app) are embedded directly.
-/

set_option maxHeartbeats 1600000

namespace AgentPoi

/-! ## Seed encoding and address derivation -/

/-- Injective encoding of a list of naturals into a single natural number.
Used to model the deterministic account-address space: an address is a
function of its seed tuple, and distinct seed tuples give distinct
addresses. -/
def encodeList (l : List Nat) : Nat :=
  l.foldr (fun a r => Nat.pair a r + 1) 0

/-- Error condition of the address-derivation function. -/
inductive DeriveError
  | InvalidSeed
deriving DecidableEq, Repr

/-- Wellformedness of a seed tuple under the host chain's derivation rules:
each seed is a byte string of at most 32 bytes. -/
def seedsWellFormed (seeds : List (List Nat)) : Bool :=
  seeds.all (fun s => decide (s.length ≤ 32) && s.all (fun b => decide (b < 256)))

/-- Modelled from the spec: the Address Derivation component (section 4.1).
Deterministically computes an account address from an ordered tuple of seed
values using the host chain's program-derived-address convention; it is a
pure function of the seeds, and fails with `InvalidSeed` exactly when a
seed violates the length/format constraints (a seed longer than 32 bytes,
or a value that is not a byte).  The concrete hash used by the host chain
is modelled by an injective encoding, which captures the contract the
callers rely on: equal seeds give equal addresses and distinct seeds give
distinct addresses. -/
def findProgramAddress (seeds : List (List Nat)) : Except DeriveError Nat :=
  if seedsWellFormed seeds then
    .ok (encodeList (seeds.map encodeList))
  else
    .error .InvalidSeed

/-! ## Data model

Modelled from the spec (section 3): the Registry singleton, per-identity
Agent records, and ephemeral Challenge records.  Public keys and account
addresses are modelled as natural numbers. -/

/-- Identity key of a wallet, modelled as a natural number. -/
abbrev Pubkey := Nat

/-- Account address in the derived-address space. -/
abbrev Addr := Nat

/-- Modelled from the spec: the singleton Registry record (admin identity
and the monotonically increasing `total_agents` counter). -/
structure RegistryState where
  admin : Pubkey
  totalAgents : Nat
deriving DecidableEq, Repr

/-- Modelled from the spec: the per-identity Agent record (section 3),
with the field layout confirmed by src/tests/agent-registry.ts (name,
modelHash, capabilities, reputationScore, challengesPassed,
challengesFailed, verified, createdAt, updatedAt). -/
structure AgentAccount where
  owner : Pubkey
  agentId : Nat
  name : String
  modelHash : String
  capabilities : String
  reputationScore : Int
  challengesPassed : Nat
  challengesFailed : Nat
  verified : Bool
  createdAt : Int
  updatedAt : Int
deriving DecidableEq, Repr

/-- Status of a Challenge record.  A closed challenge has its backing
storage reclaimed, so closing is modelled as deletion of the record
rather than as a fourth status value. -/
inductive ChallengeStatus
  | Pending
  | ResolvedPass
  | ResolvedFail
deriving DecidableEq, Repr

/-- Modelled from the spec: a Challenge record (section 3): question text,
expected-answer fingerprint (a hash, never the plaintext), status,
creation timestamp and expiry. -/
structure Challenge where
  agent : Addr
  challenger : Pubkey
  question : String
  expectedHash : String
  status : ChallengeStatus
  createdAt : Int
  expiresAt : Int
deriving DecidableEq, Repr

/-- Address of the Registry singleton: a fixed namespace tag with no
instance-specific seed (seeds `[b"registry"]`). -/
def registryAddr : Addr := encodeList [0]

/-- Agent account address, from seeds `[b"agent", owner, agent_id]`
(src/tests/agent-registry.ts lines 67-74). -/
def agentAddr (owner : Pubkey) (agentId : Nat) : Addr :=
  encodeList [1, owner, agentId]

/-- Single-slot challenge address, from seeds
`[b"challenge", agent_pda, challenger]` (src/unnamed/part_002 lines 63-70). -/
def challengeAddr (agent : Addr) (challenger : Pubkey) : Addr :=
  encodeList [2, agent, challenger]

/-- Nonce-indexed challenge address: the explicit nonce is folded into the
seed tuple, so challenges for the same pair with different nonces live at
different addresses (spec section 3, Challenge invariant). -/
def challengeNonceAddr (agent : Addr) (challenger : Pubkey) (nonce : Nat) : Addr :=
  encodeList [3, agent, challenger, nonce]

/-- Ledger state: the registry singleton plus the agent and challenge
account arenas, keyed by derived address. -/
structure Ledger where
  registry : Option RegistryState
  agents : List (Addr × AgentAccount)
  challenges : List (Addr × Challenge)
deriving DecidableEq, Repr

/-- The uninitialized system. -/
def emptyLedger : Ledger := ⟨none, [], []⟩

/-- Overwrite the value stored under key `k`. -/
def updateAcct {α : Type} (m : List (Nat × α)) (k : Nat) (v : α) : List (Nat × α) :=
  m.map (fun kv => if kv.1 = k then (k, v) else kv)

/-- Remove the account stored under key `k` (storage reclaimed). -/
def removeAcct {α : Type} (m : List (Nat × α)) (k : Nat) : List (Nat × α) :=
  m.filter (fun kv => kv.1 != k)

/-! ## Errors and validation -/

/-- Modelled from the spec: the error taxonomy (section 7). -/
inductive PoiError
  | Unauthorized
  | AlreadyInitialized
  | AccountInUse
  | AlreadyResolved
  | StillPending
  | Expired
  | InvalidName
  | InvalidFingerprint
  | AccountNotFound
deriving DecidableEq, Repr

/-- Hexadecimal digit test, matching the `[a-fA-F0-9]` character class of
the registration form pattern (src/app/src/components/RegisterForm.tsx
line 120). -/
def isHexDigit (c : Char) : Bool :=
  (decide ('0' ≤ c) && decide (c ≤ '9')) ||
  (decide ('a' ≤ c) && decide (c ≤ 'f')) ||
  (decide ('A' ≤ c) && decide (c ≤ 'F'))

/-- Model fingerprint validation: the algorithm tag `sha256:` followed by
a 64-character hexadecimal digest (RegisterForm.tsx line 120, spec
section 6). -/
def isValidModelHash (s : String) : Bool :=
  decide (s.data.take 7 = "sha256:".data) &&
  decide ((s.data.drop 7).length = 64) &&
  (s.data.drop 7).all isHexDigit

/-- Name validation: at least 3 and at most 64 characters (spec section
4.3, RegisterForm.tsx lines 38-41 and 101). -/
def isValidName (s : String) : Bool :=
  decide (3 ≤ s.length) && decide (s.length ≤ 64)

/-! ## Protocol constants -/

/-- Initial reputation of a freshly registered agent, in basis points
(src/tests/agent-registry.ts line 93). -/
def initialReputation : Int := 5000

/-- Upper bound of the reputation scale (spec section 3). -/
def maxReputation : Int := 10000

/-- Reputation delta applied on a passed challenge
(src/app/src/components/SecurityDashboard.tsx line 67). -/
def passDelta : Int := 100

/-- Reputation delta applied on a failed challenge
(src/app/src/components/SecurityDashboard.tsx line 76). -/
def failDelta : Int := -50

/-- Modelled from the spec: the fixed challenge-expiry window (section
4.4: `expiry = now + fixed window`); the concrete length is not pinned
down by the available sources, and none of the proved properties depend
on it. -/
def challengeWindow : Int := 86400

/-! ## Reputation engine -/

/-- Modelled from the spec: the Reputation Update Engine (section 4.3,
`update_reputation`): adds the delta, clamps the result to
`[0, 10000]`, and increments the pass or fail counter according to the
sign of the delta. -/
def applyReputationDelta (a : AgentAccount) (delta : Int) (now : Int) : AgentAccount :=
  { a with
    reputationScore := max 0 (min maxReputation (a.reputationScore + delta)),
    challengesPassed := if 0 < delta then a.challengesPassed + 1 else a.challengesPassed,
    challengesFailed := if 0 < delta then a.challengesFailed else a.challengesFailed + 1,
    updatedAt := now }

/-! ## Instruction handlers

Modelled from the spec (sections 4.2-4.4); the account layouts and
success-path post-states are confirmed by the client code under
src/tests and src/scripts.  Every handler either returns the complete
successor ledger or an error with no state change, which models the
ledger-native transaction atomicity of section 7. -/

/-- Modelled from the spec: `initialize_registry(admin)` (section 4.2):
allocates the singleton, sets the admin, zeroes the counter; fails with
`AlreadyInitialized` if the account already exists. -/
def initRegistry (admin : Pubkey) (s : Ledger) : Except PoiError Ledger :=
  match s.registry with
  | some _ => .error .AlreadyInitialized
  | none => .ok { s with registry := some ⟨admin, 0⟩ }

/-- Modelled from the spec: `register_agent` (section 4.3): validates the
name and fingerprint, assigns `agent_id = total_agents`, increments the
counter and creates the Agent record with reputation 5000 and
verified = false. -/
def registerAgent (owner : Pubkey) (name modelHash capabilities : String)
    (now : Int) (s : Ledger) : Except PoiError Ledger :=
  match s.registry with
  | none => .error .AccountNotFound
  | some r =>
    if !isValidName name then .error .InvalidName
    else if !isValidModelHash modelHash then .error .InvalidFingerprint
    else
      match List.lookup (agentAddr owner r.totalAgents) s.agents with
      | some _ => .error .AccountInUse
      | none =>
        .ok { s with
              registry := some ⟨r.admin, r.totalAgents + 1⟩,
              agents := (agentAddr owner r.totalAgents,
                ⟨owner, r.totalAgents, name, modelHash, capabilities,
                 initialReputation, 0, 0, false, now, now⟩) :: s.agents }

/-- Modelled from the spec: `update_agent` (section 4.3): owner-only
overwrite of the mutable fields. -/
def updateAgent (caller : Pubkey) (addr : Addr) (newName newCapabilities : String)
    (now : Int) (s : Ledger) : Except PoiError Ledger :=
  match List.lookup addr s.agents with
  | none => .error .AccountNotFound
  | some a =>
    if caller = a.owner then
      let a' := { a with name := newName, capabilities := newCapabilities, updatedAt := now }
      .ok { s with agents := updateAcct s.agents addr a' }
    else .error .Unauthorized

/-- Modelled from the spec: `verify_agent` (section 4.3): admin-only,
sets verified = true. -/
def verifyAgent (caller : Pubkey) (addr : Addr) (now : Int) (s : Ledger) :
    Except PoiError Ledger :=
  match s.registry with
  | none => .error .AccountNotFound
  | some r =>
    match List.lookup addr s.agents with
    | none => .error .AccountNotFound
    | some a =>
      if caller = r.admin then
        let a' := { a with verified := true, updatedAt := now }
        .ok { s with agents := updateAcct s.agents addr a' }
      else .error .Unauthorized

/-- Modelled from the spec: the externally exposed `update_reputation`
instruction (section 4.3), gated to the privileged authority; the
reputation test (src/tests/agent-registry.ts lines 171-209) drives it
directly with the admin wallet as the authority. -/
def updateReputation (caller : Pubkey) (addr : Addr) (delta : Int) (now : Int)
    (s : Ledger) : Except PoiError Ledger :=
  match s.registry with
  | none => .error .AccountNotFound
  | some r =>
    match List.lookup addr s.agents with
    | none => .error .AccountNotFound
    | some a =>
      if caller = r.admin then
        .ok { s with agents := updateAcct s.agents addr (applyReputationDelta a delta now) }
      else .error .Unauthorized

/-- Modelled from the spec: the shared creation path of the parameterized
challenge state machine (section 4.4, design rationale in section 4.4):
allocates a Pending challenge at the given derived address, recording
`expiry = now + fixed window`; fails with `AccountInUse` when the address
is already occupied. -/
def createChallengeAt (caddr : Addr) (challenger : Pubkey) (agent : Addr)
    (question expectedHash : String) (now : Int) (s : Ledger) :
    Except PoiError Ledger :=
  match List.lookup agent s.agents with
  | none => .error .AccountNotFound
  | some _ =>
    match List.lookup caddr s.challenges with
    | some _ => .error .AccountInUse
    | none =>
      .ok { s with challenges :=
              (caddr, ⟨agent, challenger, question, expectedHash, .Pending,
                       now, now + challengeWindow⟩) :: s.challenges }

/-- Modelled from the spec: single-slot `create_challenge` (section 4.4);
the address is a function of only the agent and the challenger. -/
def createChallenge (challenger : Pubkey) (agent : Addr)
    (question expectedHash : String) (now : Int) (s : Ledger) :
    Except PoiError Ledger :=
  createChallengeAt (challengeAddr agent challenger) challenger agent
    question expectedHash now s

/-- Modelled from the spec: `create_challenge_with_nonce` (section 4.4);
the nonce is folded into the derived address. -/
def createChallengeWithNonce (challenger : Pubkey) (agent : Addr) (nonce : Nat)
    (question expectedHash : String) (now : Int) (s : Ledger) :
    Except PoiError Ledger :=
  createChallengeAt (challengeNonceAddr agent challenger nonce) challenger agent
    question expectedHash now s

/-- Modelled from the spec: `submit_response` (section 4.4): owner-only;
fails with `AlreadyResolved` when the status is not Pending and with
`Expired` past the expiry; compares the response hash to the stored
expected-answer hash; on match resolves to ResolvedPass with reputation
delta +100, on mismatch to ResolvedFail with delta -50, writing the
challenge status and the agent's reputation in the same atomic unit. -/
def submitResponse (caller : Pubkey) (caddr : Addr) (responseHash : String)
    (now : Int) (s : Ledger) : Except PoiError Ledger :=
  match List.lookup caddr s.challenges with
  | none => .error .AccountNotFound
  | some c =>
    match List.lookup c.agent s.agents with
    | none => .error .AccountNotFound
    | some a =>
      if caller = a.owner then
        match c.status with
        | .Pending =>
          if now ≤ c.expiresAt then
            if responseHash = c.expectedHash then
              .ok { s with
                    challenges := updateAcct s.challenges caddr ({ c with status := .ResolvedPass }),
                    agents := updateAcct s.agents c.agent (applyReputationDelta a passDelta now) }
            else
              .ok { s with
                    challenges := updateAcct s.challenges caddr ({ c with status := .ResolvedFail }),
                    agents := updateAcct s.agents c.agent (applyReputationDelta a failDelta now) }
          else .error .Expired
        | _ => .error .AlreadyResolved
      else .error .Unauthorized

/-- Modelled from the spec: `close_challenge` (section 4.4): permitted for
anyone when the status is not Pending, or when Pending and past expiry;
reclaims the record's storage; fails with `StillPending` on a non-expired
Pending record. -/
def closeChallenge (caller : Pubkey) (caddr : Addr) (now : Int) (s : Ledger) :
    Except PoiError Ledger :=
  match List.lookup caddr s.challenges with
  | none => .error .AccountNotFound
  | some c =>
    match c.status with
    | .Pending =>
      if now ≤ c.expiresAt then .error .StillPending
      else .ok { s with challenges := removeAcct s.challenges caddr }
    | _ => .ok { s with challenges := removeAcct s.challenges caddr }

/-! ## Operation sequences -/

/-- One externally submitted instruction. -/
inductive Op
  | initRegistry (admin : Pubkey)
  | registerAgent (owner : Pubkey) (name modelHash capabilities : String) (now : Int)
  | updateAgent (caller : Pubkey) (addr : Addr) (newName newCapabilities : String) (now : Int)
  | verifyAgent (caller : Pubkey) (addr : Addr) (now : Int)
  | updateReputation (caller : Pubkey) (addr : Addr) (delta : Int) (now : Int)
  | createChallenge (challenger : Pubkey) (agent : Addr) (question expectedHash : String) (now : Int)
  | createChallengeWithNonce (challenger : Pubkey) (agent : Addr) (nonce : Nat)
      (question expectedHash : String) (now : Int)
  | submitResponse (caller : Pubkey) (challenge : Addr) (responseHash : String) (now : Int)
  | closeChallenge (caller : Pubkey) (challenge : Addr) (now : Int)
deriving DecidableEq, Repr

/-- Dispatch one instruction against the ledger. -/
def step (op : Op) (s : Ledger) : Except PoiError Ledger :=
  match op with
  | .initRegistry admin => initRegistry admin s
  | .registerAgent owner name modelHash capabilities now =>
      registerAgent owner name modelHash capabilities now s
  | .updateAgent caller addr newName newCapabilities now =>
      updateAgent caller addr newName newCapabilities now s
  | .verifyAgent caller addr now => verifyAgent caller addr now s
  | .updateReputation caller addr delta now => updateReputation caller addr delta now s
  | .createChallenge challenger agent question expectedHash now =>
      createChallenge challenger agent question expectedHash now s
  | .createChallengeWithNonce challenger agent nonce question expectedHash now =>
      createChallengeWithNonce challenger agent nonce question expectedHash now s
  | .submitResponse caller challenge responseHash now =>
      submitResponse caller challenge responseHash now s
  | .closeChallenge caller challenge now => closeChallenge caller challenge now s

/-- Whether an instruction succeeds against the given ledger. -/
def stepOk (op : Op) (s : Ledger) : Bool :=
  match step op s with
  | .ok _ => true
  | .error _ => false

/-- Apply one instruction: a failing instruction aborts with no state
change (spec section 7, propagation policy). -/
def applyOp (op : Op) (s : Ledger) : Ledger :=
  match step op s with
  | .ok s' => s'
  | .error _ => s

/-- Run a sequence of instructions. -/
def run (ops : List Op) (s : Ledger) : Ledger :=
  match ops with
  | [] => s
  | op :: rest => run rest (applyOp op s)

/-! ## Reputation bounds invariant -/

/-- Every agent account on the ledger has its reputation in `[0, 10000]`. -/
def RepOk (s : Ledger) : Prop :=
  ∀ p ∈ s.agents, 0 ≤ p.2.reputationScore ∧ p.2.reputationScore ≤ maxReputation

/-! ## Challenge counters versus resolutions -/

/-- Sum of the pass and fail counters of an agent account. -/
def counterSum (a : AgentAccount) : Nat :=
  a.challengesPassed + a.challengesFailed

/-- Sum of the counters of the agent stored at `A` (0 when absent). -/
def counterSumAt (s : Ledger) (A : Addr) : Nat :=
  match List.lookup A s.agents with
  | some a => counterSum a
  | none => 0

/-- Number of challenge records referencing agent `A` that currently carry
a resolved status. -/
def resolvedChallengeCount (s : Ledger) (A : Addr) : Nat :=
  (s.challenges.filter (fun p =>
    p.2.agent == A &&
    (p.2.status == ChallengeStatus.ResolvedPass ||
     p.2.status == ChallengeStatus.ResolvedFail))).length

/-- Whether the instruction is a successful challenge resolution for a
challenge referencing agent `A`. -/
def isResolutionFor (op : Op) (s : Ledger) (A : Addr) : Bool :=
  match op with
  | .submitResponse _ caddr _ _ =>
      stepOk op s &&
      (match List.lookup caddr s.challenges with
       | some c => c.agent == A
       | none => false)
  | _ => false

/-- Number of successful challenge resolutions for agent `A` along a run
of the given instruction sequence. -/
def resCount (ops : List Op) (s : Ledger) (A : Addr) : Nat :=
  match ops with
  | [] => 0
  | op :: rest =>
    (if isResolutionFor op s A then 1 else 0) + resCount rest (applyOp op s) A

/-- Whether the instruction is not a direct `update_reputation` call. -/
def notRepUpdate (op : Op) : Bool :=
  match op with
  | .updateReputation _ _ _ _ => false
  | _ => true

/-- The sequence drives the reputation engine only through challenge
resolution, never through the direct `update_reputation` instruction. -/
def noDirectRepUpdate (ops : List Op) : Bool :=
  ops.all notRepUpdate

/-! ## SHA-256 and the client-side answer fingerprint

The clients hash a plaintext answer with SHA-256 and send the lowercase
hexadecimal digest (src/scripts/create-and-fail-challenge.ts lines 12-14,
src/unnamed/part_002 lines 12-14: `createHash("sha256").update(answer)
.digest("hex")`).  SHA-256 itself (FIPS 180-4) is embedded below over
byte lists, with 32-bit words represented as naturals reduced mod 2^32. -/

/-- Truncation to a 32-bit word. -/
def w32 (x : Nat) : Nat := x % 4294967296

/-- Rotate a 32-bit word right by n positions. -/
def rotr32 (n x : Nat) : Nat := w32 ((x >>> n) ||| (x <<< (32 - n)))

/-- Bitwise complement of a 32-bit word. -/
def not32 (x : Nat) : Nat := x ^^^ 4294967295

def ch32 (x y z : Nat) : Nat := (x &&& y) ^^^ (not32 x &&& z)

def maj32 (x y z : Nat) : Nat := (x &&& y) ^^^ (x &&& z) ^^^ (y &&& z)

def bigSigma0 (x : Nat) : Nat := rotr32 2 x ^^^ rotr32 13 x ^^^ rotr32 22 x

def bigSigma1 (x : Nat) : Nat := rotr32 6 x ^^^ rotr32 11 x ^^^ rotr32 25 x

def smallSigma0 (x : Nat) : Nat := rotr32 7 x ^^^ rotr32 18 x ^^^ (x >>> 3)

def smallSigma1 (x : Nat) : Nat := rotr32 17 x ^^^ rotr32 19 x ^^^ (x >>> 10)

/-- Round constants of SHA-256 (written in decimal). -/
def sha256K : List Nat :=
  [1116352408, 1899447441, 3049323471, 3921009573, 961987163, 1508970993,
   2453635748, 2870763221, 3624381080, 310598401, 607225278, 1426881987,
   1925078388, 2162078206, 2614888103, 3248222580, 3835390401, 4022224774,
   264347078, 604807628, 770255983, 1249150122, 1555081692, 1996064986,
   2554220882, 2821834349, 2952996808, 3210313671, 3336571891, 3584528711,
   113926993, 338241895, 666307205, 773529912, 1294757372, 1396182291,
   1695183700, 1986661051, 2177026350, 2456956037, 2730485921, 2820302411,
   3259730800, 3345764771, 3516065817, 3600352804, 4094571909, 275423344,
   430227734, 506948616, 659060556, 883997877, 958139571, 1322822218,
   1537002063, 1747873779, 1955562222, 2024104815, 2227730452, 2361852424,
   2428436474, 2756734187, 3204031479, 3329325298]

/-- Initial hash state of SHA-256 (written in decimal). -/
def sha256InitHash : List Nat :=
  [1779033703, 3144134277, 1013904242, 2773480762,
   1359893119, 2600822924, 528734635, 1541459225]

/-- Big-endian bytes of a natural, fixed width. -/
def natToBeBytes (width n : Nat) : List Nat :=
  (List.range width).map (fun i => n / 256 ^ (width - 1 - i) % 256)

/-- SHA-256 message padding: append the 0x80 byte, zero bytes up to 56 mod
64, then the 64-bit big-endian bit length. -/
def sha256Pad (msg : List Nat) : List Nat :=
  msg ++ [128] ++ List.replicate ((119 - msg.length % 64) % 64) 0 ++ natToBeBytes 8 (8 * msg.length)

/-- Group bytes into big-endian 32-bit words. -/
def bytesToWords32 : List Nat → List Nat
  | b0 :: b1 :: b2 :: b3 :: rest =>
      (b0 * 16777216 + b1 * 65536 + b2 * 256 + b3) :: bytesToWords32 rest
  | _ => []

/-- Split a word list into 16-word blocks; the fuel argument bounds the
number of blocks and is instantiated with the list length. -/
def toBlocksAux : Nat → List Nat → List (List Nat)
  | 0, _ => []
  | _, [] => []
  | fuel + 1, w :: rest => ((w :: rest).take 16) :: toBlocksAux fuel ((w :: rest).drop 16)

/-- Split a word list into 16-word blocks. -/
def toBlocks (ws : List Nat) : List (List Nat) :=
  toBlocksAux ws.length ws

/-- Extend a 16-word block to the 64-word message schedule by appending
48 scheduled words. -/
def extendSchedule (ws : List Nat) : List Nat :=
  (List.range 48).foldl
    (fun acc _ =>
      acc ++
        [w32 (smallSigma1 (acc.getD (acc.length - 2) 0) + acc.getD (acc.length - 7) 0 +
              smallSigma0 (acc.getD (acc.length - 15) 0) + acc.getD (acc.length - 16) 0)])
    ws

/-- One SHA-256 round on the eight working registers. -/
def sha256Round (wt kt : Nat) (regs : List Nat) : List Nat :=
  match regs with
  | [a, b, c, d, e, f, g, h] =>
    let t1 := w32 (h + bigSigma1 e + ch32 e f g + kt + wt)
    let t2 := w32 (bigSigma0 a + maj32 a b c)
    [w32 (t1 + t2), a, b, c, w32 (d + t1), e, f, g]
  | other => other

/-- Fold the 64 rounds over the schedule and round constants. -/
def sha256Rounds (ws ks regs : List Nat) : List Nat :=
  match ws, ks with
  | wt :: ws2, kt :: ks2 => sha256Rounds ws2 ks2 (sha256Round wt kt regs)
  | _, _ => regs

/-- Compress one block into the running hash value. -/
def sha256Compress (hv : List Nat) (block : List Nat) : List Nat :=
  let regs := sha256Rounds (extendSchedule block) sha256K hv
  (hv.zip regs).map (fun p => w32 (p.1 + p.2))

/-- SHA-256 digest (32 bytes) of a byte list. -/
def sha256 (msg : List Nat) : List Nat :=
  let hv := (toBlocks (bytesToWords32 (sha256Pad msg))).foldl sha256Compress sha256InitHash
  (hv.map (fun w => [w / 16777216 % 256, w / 65536 % 256, w / 256 % 256, w % 256])).flatten

/-- UTF-8 encoding of one character. -/
def utf8EncodeChar (c : Char) : List Nat :=
  let n := c.toNat
  if n < 128 then [n]
  else if n < 2048 then [192 + n / 64, 128 + n % 64]
  else if n < 65536 then [224 + n / 4096, 128 + n / 64 % 64, 128 + n % 64]
  else [240 + n / 262144, 128 + n / 4096 % 64, 128 + n / 64 % 64, 128 + n % 64]

/-- UTF-8 bytes of a string. -/
def utf8Bytes (s : String) : List Nat :=
  (s.data.map utf8EncodeChar).flatten

/-- Lowercase hexadecimal digit. -/
def hexDigit (n : Nat) : Char :=
  if n < 10 then Char.ofNat (48 + n) else Char.ofNat (87 + n)

/-- Lowercase hexadecimal rendering of a byte list. -/
def toHex (bs : List Nat) : String :=
  ⟨(bs.map (fun b => [hexDigit (b / 16), hexDigit (b % 16)])).flatten⟩

/-- Answer fingerprint as computed by the challenge-creation script:
`createHash("sha256").update(answer).digest("hex")`
(src/scripts/create-and-fail-challenge.ts lines 12-14). -/
def hashAnswer (answer : String) : String :=
  toHex (sha256 (utf8Bytes answer))

/-- Answer fingerprint as computed by the response-submission script
(src/unnamed/part_002 lines 12-14); its body is character-for-character
the same as the creation side's. -/
def hashAnswerSubmitSide (answer : String) : String :=
  toHex (sha256 (utf8Bytes answer))

/-! ## Merkle audit batching

Modelled from the spec (sections 4.5 and 8): activity records are hashed
and combined into a binary Merkle tree; a lone node at an odd level is
promoted unchanged to the next level (the pairing policy the spec offers
as its worked example); `verify_merkle_proof` recomputes the root by
iteratively hashing the leaf with each proof-path sibling in order and
compares the result to the committed root.  Digests are modelled as
naturals and the two-child digest combination as an injective pairing,
standing in for the fixed collision-resistant hash whose collisions the
round-trip contract assumes away. -/

/-- Modelled from the spec: combination of two child digests into the
parent digest.  Injectivity models the collision-freeness of the fixed
digest algorithm that the round-trip property relies on. -/
def combineHash (x y : Nat) : Nat := Nat.pair x y

/-- One level of the Merkle tree: adjacent nodes are paired and a lone
trailing node is promoted unchanged. -/
def buildLevel : List Nat → List Nat
  | [] => []
  | [x] => [x]
  | x :: y :: rest => combineHash x y :: buildLevel rest

/-- Merkle root with an explicit recursion bound (the bound is
instantiated with the leaf count, which always suffices). -/
def merkleRootAux : Nat → List Nat → Nat
  | _, [] => 0
  | _, [x] => x
  | 0, _ => 0
  | fuel + 1, xs => merkleRootAux fuel (buildLevel xs)

/-- Modelled from the spec: the root of the Merkle batching construction
over an ordered list of leaf hashes. -/
def merkleRoot (xs : List Nat) : Nat := merkleRootAux xs.length xs

/-- Proof path for the leaf at index `i`: a list of (position, sibling)
pairs, where the flag records whether the sibling sits to the left. -/
def genProofAux : Nat → List Nat → Nat → List (Bool × Nat)
  | 0, _, _ => []
  | fuel + 1, xs, i =>
    if xs.length ≤ 1 then []
    else
      (if i % 2 = 0 then
        (if i + 1 < xs.length then [(false, xs.getD (i + 1) 0)] else [])
       else [(true, xs.getD (i - 1) 0)]) ++ genProofAux fuel (buildLevel xs) (i / 2)

/-- Proof path for the leaf at index `i` of the batch. -/
def genProof (xs : List Nat) (i : Nat) : List (Bool × Nat) :=
  genProofAux xs.length xs i

/-- Recompute the root from a leaf by iteratively hashing with each
proof-path sibling in order. -/
def computeRoot : Nat → List (Bool × Nat) → Nat
  | leaf, [] => leaf
  | leaf, p :: rest =>
    computeRoot (if p.1 then combineHash p.2 leaf else combineHash leaf p.2) rest

/-- Modelled from the spec: `verify_merkle_proof(leaf_hash, proof_path,
root)` — pure; recomputes the root and compares it to `root`. -/
def verifyMerkleProof (leaf : Nat) (path : List (Bool × Nat)) (root : Nat) : Bool :=
  computeRoot leaf path == root

/-- Flip one bit of a natural-number digest. -/
def flipBit (x bit : Nat) : Nat := x ^^^ 2 ^ bit

/-- Flip one bit of the sibling hash at position `j` of a proof path. -/
def flipProofBit : List (Bool × Nat) → Nat → Nat → List (Bool × Nat)
  | [], _, _ => []
  | p :: rest, 0, bit => (p.1, flipBit p.2 bit) :: rest
  | p :: rest, j + 1, bit => p :: flipProofBit rest j bit

/-! ## Registration sequences -/

/-- Arguments of one `register_agent` call. -/
structure RegInput where
  owner : Pubkey
  name : String
  modelHash : String
  capabilities : String
  now : Int
deriving DecidableEq, Repr

/-- One registration attempt. -/
def regStep (r : RegInput) (s : Ledger) : Except PoiError Ledger :=
  registerAgent r.owner r.name r.modelHash r.capabilities r.now s

/-- Run a sequence of registration attempts (a failing call changes
nothing). -/
def runRegs : List RegInput → Ledger → Ledger
  | [], s => s
  | r :: rest, s =>
    runRegs rest (match regStep r s with | .ok s' => s' | .error _ => s)

/-- Every registration in the sequence succeeds. -/
def allRegsSucceed : List RegInput → Ledger → Bool
  | [], _ => true
  | r :: rest, s =>
    match regStep r s with
    | .ok s' => allRegsSucceed rest s'
    | .error _ => false

/-- The agent ids assigned by the successful registrations of the
sequence, in order (the id assigned by `register_agent` is the
registry's `total_agents` value at that call). -/
def assignedIds : List RegInput → Ledger → List Nat
  | [], _ => []
  | r :: rest, s =>
    match regStep r s with
    | .ok s' =>
      (match s.registry with | some reg => reg.totalAgents | none => 0) :: assignedIds rest s'
    | .error _ => assignedIds rest s

/-- The registry counter (0 when uninitialized). -/
def totalAgentsOf (s : Ledger) : Nat :=
  match s.registry with
  | some r => r.totalAgents
  | none => 0

/-! ## Concrete fixtures for witnesses and counterexamples -/

/-- The model hash used by the test suite
(src/tests/agent-registry.ts line 29). -/
def wHash : String :=
  "sha256:1234567890abcdef1234567890abcdef1234567890abcdef1234567890abcdef"

/-- Address of the fixture agent (owner key 2, agent id 0). -/
def wAgentAddr : Addr := agentAddr 2 0

/-- Address of the fixture single-slot challenge (challenger key 3). -/
def wChalAddr : Addr := challengeAddr wAgentAddr 3

/-- Fixture agent with the initial reputation 5000. -/
def wAgent : AgentAccount :=
  ⟨2, 0, "TestAgent", wHash, "analysis,coding", 5000, 0, 0, false, 100, 100⟩

/-- Fixture pending challenge against the fixture agent. -/
def wChallenge : Challenge :=
  ⟨wAgentAddr, 3, "What is 2 + 2?", "h4", .Pending, 100, 100 + challengeWindow⟩

/-- Fixture ledger: initialized registry (admin 1), one agent, one pending
challenge. -/
def wLedger : Ledger :=
  ⟨some ⟨1, 1⟩, [(wAgentAddr, wAgent)], [(wChalAddr, wChallenge)]⟩

/-- Fixture agent sitting near the reputation cap. -/
def cexAgent : AgentAccount :=
  ⟨2, 0, "TestAgent", wHash, "analysis,coding", 9950, 0, 0, false, 100, 100⟩

/-- Fixture ledger whose agent has reputation 9950. -/
def cexLedger : Ledger :=
  ⟨some ⟨1, 1⟩, [(wAgentAddr, cexAgent)], [(wChalAddr, wChallenge)]⟩

/-- Operation sequence driving the reputation engine through the direct
`update_reputation` instruction, as the reputation test does
(src/tests/agent-registry.ts lines 171-209). -/
def cexOps : List Op :=
  [Op.initRegistry 1,
   Op.registerAgent 2 "TestAgent" wHash "analysis,coding" 100,
   Op.updateReputation 1 (agentAddr 2 0) 100 200]

/-- Fixture challenge whose expected hash is the SHA-256 hex digest of
the plaintext "4", as in the demo scripts. -/
def wShaChallenge : Challenge :=
  ⟨wAgentAddr, 3, "What is 2 + 2?", hashAnswer "4", .Pending, 100, 100 + challengeWindow⟩

/-- Fixture ledger carrying the SHA-256-based challenge. -/
def wShaLedger : Ledger :=
  ⟨some ⟨1, 1⟩, [(wAgentAddr, wAgent)], [(wChalAddr, wShaChallenge)]⟩

/-! ## Theorems -/

theorem encodeList_inj : ∀ {l1 l2 : List Nat}, encodeList l1 = encodeList l2 → l1 = l2 := by
  intro l1
  induction l1 with
  | nil =>
    intro l2 h
    cases l2 with
    | nil => rfl
    | cons b t => simp [encodeList] at h
  | cons a t ih =>
    intro l2 h
    cases l2 with
    | nil => simp [encodeList] at h
    | cons b t2 =>
      simp only [encodeList, List.foldr] at h
      have h' : Nat.pair a (t.foldr (fun a r => Nat.pair a r + 1) 0) =
          Nat.pair b (t2.foldr (fun a r => Nat.pair a r + 1) 0) := by
        omega
      rcases Nat.pair_eq_pair.mp h' with ⟨hab, ht⟩
      have := ih (show encodeList t = encodeList t2 by simpa [encodeList] using ht)
      simp [hab, this]

theorem findProgramAddress_ok_iff (seeds : List (List Nat)) :
    (findProgramAddress seeds).isOk = true ↔ seedsWellFormed seeds = true := by
  unfold findProgramAddress
  by_cases h : seedsWellFormed seeds = true <;> simp [h, Except.isOk, Except.toBool]

theorem findProgramAddress_inj {s1 s2 : List (List Nat)} {a : Nat}
    (h1 : findProgramAddress s1 = .ok a) (h2 : findProgramAddress s2 = .ok a) :
    s1 = s2 := by
  unfold findProgramAddress at h1 h2
  by_cases w1 : seedsWellFormed s1 = true <;> simp [w1] at h1
  by_cases w2 : seedsWellFormed s2 = true <;> simp [w2] at h2
  subst h1
  have := encodeList_inj h2.symm
  exact List.map_injective_iff.mpr (fun _ _ h => encodeList_inj h) this

theorem challengeNonceAddr_inj {agent : Addr} {challenger : Pubkey} {n1 n2 : Nat}
    (h : challengeNonceAddr agent challenger n1 = challengeNonceAddr agent challenger n2) :
    n1 = n2 := by
  have := encodeList_inj h
  simpa using this

/-! ## Association-list lemmas -/

theorem updateAcct_cons {α : Type} (k0 : Nat) (v0 : α) (rest : List (Nat × α))
    (k : Nat) (v : α) :
    updateAcct ((k0, v0) :: rest) k v =
      (if k0 = k then (k, v) else (k0, v0)) :: updateAcct rest k v := rfl

theorem lookup_cons_ne {α : Type} {k k' : Nat} (v : α) (m : List (Nat × α))
    (h : k' ≠ k) : List.lookup k' ((k, v) :: m) = List.lookup k' m := by
  have hb : (k' == k) = false := by simpa using h
  simp [List.lookup_cons, hb]

theorem lookup_updateAcct_self {α : Type} (m : List (Nat × α)) (k : Nat) (v : α) :
    List.lookup k (updateAcct m k v) = (List.lookup k m).map (fun _ => v) := by
  induction m with
  | nil => simp [updateAcct]
  | cons kv rest ih =>
    obtain ⟨k0, v0⟩ := kv
    by_cases h : k0 = k
    · subst h
      rw [updateAcct_cons]
      simp
    · rw [updateAcct_cons, if_neg h, lookup_cons_ne _ _ (fun hk => h hk.symm),
        lookup_cons_ne _ _ (fun hk => h hk.symm)]
      exact ih

theorem lookup_updateAcct_ne {α : Type} (m : List (Nat × α)) {k k' : Nat} (v : α)
    (h : k' ≠ k) : List.lookup k' (updateAcct m k v) = List.lookup k' m := by
  induction m with
  | nil => simp [updateAcct]
  | cons kv rest ih =>
    obtain ⟨k0, v0⟩ := kv
    by_cases hk : k0 = k
    · subst hk
      rw [updateAcct_cons, if_pos rfl, lookup_cons_ne _ _ h, lookup_cons_ne _ _ h]
      exact ih
    · rw [updateAcct_cons, if_neg hk]
      by_cases hk' : k' = k0
      · subst hk'
        simp
      · rw [lookup_cons_ne _ _ hk', lookup_cons_ne _ _ hk']
        exact ih

theorem mem_updateAcct {α : Type} {m : List (Nat × α)} {k : Nat} {v : α}
    {q : Nat × α} (h : q ∈ updateAcct m k v) : q = (k, v) ∨ q ∈ m := by
  unfold updateAcct at h
  rcases List.mem_map.mp h with ⟨p, hp, heq⟩
  by_cases hk : p.1 = k
  · rw [if_pos hk] at heq
    exact Or.inl heq.symm
  · rw [if_neg hk] at heq
    exact Or.inr (heq ▸ hp)

theorem lookup_mem {α : Type} {m : List (Nat × α)} {k : Nat} {v : α}
    (h : List.lookup k m = some v) : (k, v) ∈ m := by
  induction m with
  | nil => simp at h
  | cons kv rest ih =>
    obtain ⟨k0, v0⟩ := kv
    by_cases hk : k = k0
    · subst hk
      rw [List.lookup_cons_self] at h
      cases h
      exact List.mem_cons_self _ _
    · rw [lookup_cons_ne _ _ hk] at h
      exact List.mem_cons_of_mem _ (ih h)

/-! ## Reputation engine lemmas -/

theorem repDelta_score_bounds (a : AgentAccount) (delta now : Int) :
    0 ≤ (applyReputationDelta a delta now).reputationScore ∧
    (applyReputationDelta a delta now).reputationScore ≤ maxReputation := by
  simp only [applyReputationDelta, maxReputation]
  omega

theorem repDelta_counterSum (a : AgentAccount) (delta now : Int) :
    (applyReputationDelta a delta now).challengesPassed +
      (applyReputationDelta a delta now).challengesFailed =
    a.challengesPassed + a.challengesFailed + 1 := by
  simp only [applyReputationDelta]
  split <;> omega

theorem repDelta_owner (a : AgentAccount) (delta now : Int) :
    (applyReputationDelta a delta now).owner = a.owner := rfl

theorem repOk_of_agents_eq {s s' : Ledger} (h : s'.agents = s.agents)
    (hs : RepOk s) : RepOk s' := fun p hp => hs p (h ▸ hp)

theorem repOk_cons {s s' : Ledger} {q : Addr × AgentAccount}
    (h : s'.agents = q :: s.agents)
    (hq : 0 ≤ q.2.reputationScore ∧ q.2.reputationScore ≤ maxReputation)
    (hs : RepOk s) : RepOk s' := by
  intro p hp
  rw [h] at hp
  rcases List.mem_cons.mp hp with hp | hp
  · exact hp ▸ hq
  · exact hs p hp

theorem repOk_updateAcct {s s' : Ledger} {k : Addr} {v : AgentAccount}
    (h : s'.agents = updateAcct s.agents k v)
    (hv : 0 ≤ v.reputationScore ∧ v.reputationScore ≤ maxReputation)
    (hs : RepOk s) : RepOk s' := by
  intro p hp
  rw [h] at hp
  rcases mem_updateAcct hp with hp | hp
  · exact hp ▸ hv
  · exact hs p hp

theorem repOk_step {op : Op} {s s' : Ledger} (h : step op s = .ok s')
    (hs : RepOk s) : RepOk s' := by
  cases op with
  | initRegistry admin =>
    simp only [step] at h
    unfold initRegistry at h
    split at h
    · cases h
    · cases h
      exact repOk_of_agents_eq rfl hs
  | registerAgent owner name modelHash capabilities now =>
    simp only [step] at h
    unfold registerAgent at h
    split at h
    · cases h
    · split at h
      · cases h
      · split at h
        · cases h
        · split at h
          · cases h
          · cases h
            refine repOk_cons rfl ?_ hs
            constructor <;> simp [initialReputation, maxReputation]
  | updateAgent caller addr newName newCapabilities now =>
    simp only [step] at h
    unfold updateAgent at h
    split at h
    · cases h
    · rename_i a heq
      split at h
      · cases h
        have hb := hs _ (lookup_mem heq)
        exact repOk_updateAcct rfl ⟨hb.1, hb.2⟩ hs
      · cases h
  | verifyAgent caller addr now =>
    simp only [step] at h
    unfold verifyAgent at h
    split at h
    · cases h
    · split at h
      · cases h
      · rename_i a heq
        split at h
        · cases h
          have hb := hs _ (lookup_mem heq)
          exact repOk_updateAcct rfl ⟨hb.1, hb.2⟩ hs
        · cases h
  | updateReputation caller addr delta now =>
    simp only [step] at h
    unfold updateReputation at h
    split at h
    · cases h
    · split at h
      · cases h
      · split at h
        · cases h
          exact repOk_updateAcct rfl (repDelta_score_bounds _ _ _) hs
        · cases h
  | createChallenge challenger agent question expectedHash now =>
    simp only [step] at h
    unfold createChallenge createChallengeAt at h
    split at h
    · cases h
    · split at h
      · cases h
      · cases h
        exact repOk_of_agents_eq rfl hs
  | createChallengeWithNonce challenger agent nonce question expectedHash now =>
    simp only [step] at h
    unfold createChallengeWithNonce createChallengeAt at h
    split at h
    · cases h
    · split at h
      · cases h
      · cases h
        exact repOk_of_agents_eq rfl hs
  | submitResponse caller challenge responseHash now =>
    simp only [step] at h
    unfold submitResponse at h
    split at h
    · cases h
    · split at h
      · cases h
      · split at h
        · split at h
          · split at h
            · split at h
              · cases h
                exact repOk_updateAcct rfl (repDelta_score_bounds _ _ _) hs
              · cases h
                exact repOk_updateAcct rfl (repDelta_score_bounds _ _ _) hs
            · cases h
          · cases h
        · cases h
  | closeChallenge caller challenge now =>
    simp only [step] at h
    unfold closeChallenge at h
    split at h
    · cases h
    · split at h
      · split at h
        · cases h
        · cases h
          exact repOk_of_agents_eq rfl hs
      · cases h
        exact repOk_of_agents_eq rfl hs

theorem repOk_applyOp (op : Op) (s : Ledger) (hs : RepOk s) : RepOk (applyOp op s) := by
  unfold applyOp
  rcases h : step op s with s' | e
  · exact hs
  · exact repOk_step h hs

theorem repOk_run (ops : List Op) (s : Ledger) (hs : RepOk s) : RepOk (run ops s) := by
  induction ops generalizing s with
  | nil => exact hs
  | cons op rest ih => exact ih _ (repOk_applyOp op s hs)

theorem stepOk_of_ok {op : Op} {s s' : Ledger} (h : step op s = .ok s') :
    stepOk op s = true := by
  unfold stepOk
  rw [h]

theorem counterSumAt_step {op : Op} {s s' : Ledger} (h : step op s = .ok s')
    (hop : notRepUpdate op = true) (A : Addr) :
    counterSumAt s' A = counterSumAt s A + (if isResolutionFor op s A then 1 else 0) := by
  cases op with
  | initRegistry admin =>
    simp only [step] at h
    unfold initRegistry at h
    split at h
    · cases h
    · cases h
      simp [counterSumAt, isResolutionFor]
  | registerAgent owner name modelHash capabilities now =>
    simp only [step] at h
    unfold registerAgent at h
    split at h
    · cases h
    · rename_i r hr
      split at h
      · cases h
      · split at h
        · cases h
        · split at h
          · cases h
          · rename_i heq
            cases h
            simp only [counterSumAt, isResolutionFor, if_neg Bool.false_ne_true]
            by_cases hA : A = agentAddr owner r.totalAgents
            · subst hA
              rw [List.lookup_cons_self, heq]
              simp [counterSum]
            · rw [lookup_cons_ne _ _ hA]
              simp
  | updateAgent caller addr newName newCapabilities now =>
    simp only [step] at h
    unfold updateAgent at h
    split at h
    · cases h
    · rename_i a heq
      split at h
      · cases h
        simp only [counterSumAt, isResolutionFor, if_neg Bool.false_ne_true]
        by_cases hA : A = addr
        · subst hA
          rw [lookup_updateAcct_self, heq]
          simp [counterSum]
        · rw [lookup_updateAcct_ne _ _ hA]
          simp
      · cases h
  | verifyAgent caller addr now =>
    simp only [step] at h
    unfold verifyAgent at h
    split at h
    · cases h
    · split at h
      · cases h
      · rename_i a heq
        split at h
        · cases h
          simp only [counterSumAt, isResolutionFor, if_neg Bool.false_ne_true]
          by_cases hA : A = addr
          · subst hA
            rw [lookup_updateAcct_self, heq]
            simp [counterSum]
          · rw [lookup_updateAcct_ne _ _ hA]
            simp
        · cases h
  | updateReputation caller addr delta now =>
    simp [notRepUpdate] at hop
  | createChallenge challenger agent question expectedHash now =>
    simp only [step] at h
    unfold createChallenge createChallengeAt at h
    split at h
    · cases h
    · split at h
      · cases h
      · cases h
        simp [counterSumAt, isResolutionFor]
  | createChallengeWithNonce challenger agent nonce question expectedHash now =>
    simp only [step] at h
    unfold createChallengeWithNonce createChallengeAt at h
    split at h
    · cases h
    · split at h
      · cases h
      · cases h
        simp [counterSumAt, isResolutionFor]
  | submitResponse caller caddr responseHash now =>
    have hok : stepOk (Op.submitResponse caller caddr responseHash now) s = true :=
      stepOk_of_ok h
    simp only [step] at h
    unfold submitResponse at h
    split at h
    · cases h
    · rename_i c heqc
      split at h
      · cases h
      · rename_i a heqa
        split at h
        · split at h
          · split at h
            · split at h
              · cases h
                simp only [counterSumAt, isResolutionFor, hok, heqc, Bool.true_and]
                by_cases hA : c.agent = A
                · subst hA
                  rw [lookup_updateAcct_self, heqa]
                  simp [counterSum, repDelta_counterSum a passDelta now, counterSumAt, heqa]
                · rw [lookup_updateAcct_ne _ _ (fun hh => hA hh.symm)]
                  simp [hA, counterSumAt]
              · cases h
                simp only [counterSumAt, isResolutionFor, hok, heqc, Bool.true_and]
                by_cases hA : c.agent = A
                · subst hA
                  rw [lookup_updateAcct_self, heqa]
                  simp [counterSum, repDelta_counterSum a failDelta now, counterSumAt, heqa]
                · rw [lookup_updateAcct_ne _ _ (fun hh => hA hh.symm)]
                  simp [hA, counterSumAt]
            · cases h
          · cases h
        · cases h
  | closeChallenge caller caddr now =>
    simp only [step] at h
    unfold closeChallenge at h
    split at h
    · cases h
    · split at h
      · split at h
        · cases h
        · cases h
          simp [counterSumAt, isResolutionFor]
      · cases h
        simp [counterSumAt, isResolutionFor]

theorem counterSumAt_applyOp (op : Op) (s : Ledger) (A : Addr)
    (hop : notRepUpdate op = true) :
    counterSumAt (applyOp op s) A =
      counterSumAt s A + (if isResolutionFor op s A then 1 else 0) := by
  unfold applyOp
  rcases hstep : step op s with e | s'
  · have hko : stepOk op s = false := by
      unfold stepOk
      rw [hstep]
    cases op <;> simp [isResolutionFor, hko]
  · exact counterSumAt_step hstep hop A

theorem counterSumAt_run (ops : List Op) (s : Ledger) (A : Addr)
    (h : noDirectRepUpdate ops = true) :
    counterSumAt (run ops s) A = counterSumAt s A + resCount ops s A := by
  induction ops generalizing s with
  | nil => simp [run, resCount]
  | cons op rest ih =>
    unfold noDirectRepUpdate at h
    rw [List.all_cons, Bool.and_eq_true] at h
    rcases h with ⟨hop, hrest⟩
    show counterSumAt (run rest (applyOp op s)) A = _
    rw [ih (applyOp op s) hrest, counterSumAt_applyOp op s A hop]
    have hrc : resCount (op :: rest) s A =
        (if isResolutionFor op s A then 1 else 0) + resCount rest (applyOp op s) A := rfl
    rw [hrc]
    omega

/-! ## Handler characterization lemmas -/

theorem submitResponse_resolves {caller : Pubkey} {caddr : Addr} {rh : String}
    {now : Int} {s : Ledger} {c : Challenge} {a : AgentAccount}
    (hc : List.lookup caddr s.challenges = some c)
    (ha : List.lookup c.agent s.agents = some a)
    (hown : caller = a.owner) (hst : c.status = .Pending)
    (hexp : now ≤ c.expiresAt) :
    submitResponse caller caddr rh now s =
      .ok { s with
            challenges := updateAcct s.challenges caddr
              ({ c with status := if rh = c.expectedHash then .ResolvedPass else .ResolvedFail }),
            agents := updateAcct s.agents c.agent
              (applyReputationDelta a (if rh = c.expectedHash then passDelta else failDelta) now) } := by
  unfold submitResponse
  simp only [hc, ha]
  rw [if_pos hown]
  simp only [hst]
  rw [if_pos hexp]
  by_cases hm : rh = c.expectedHash <;> simp [hm]

theorem submitResponse_ok_inv {caller : Pubkey} {caddr : Addr} {rh : String}
    {now : Int} {s s' : Ledger} (h : submitResponse caller caddr rh now s = .ok s') :
    ∃ c a, List.lookup caddr s.challenges = some c ∧
      List.lookup c.agent s.agents = some a ∧
      caller = a.owner ∧ c.status = .Pending ∧ now ≤ c.expiresAt ∧
      s'.registry = s.registry ∧
      s'.challenges = updateAcct s.challenges caddr
        ({ c with status := if rh = c.expectedHash then .ResolvedPass else .ResolvedFail }) ∧
      s'.agents = updateAcct s.agents c.agent
        (applyReputationDelta a (if rh = c.expectedHash then passDelta else failDelta) now) := by
  unfold submitResponse at h
  split at h
  · cases h
  · rename_i c heqc
    split at h
    · cases h
    · rename_i a heqa
      split at h
      · rename_i hown
        split at h
        · rename_i hst
          split at h
          · rename_i hexp
            split at h
            · rename_i hm
              cases h
              exact ⟨c, a, heqc, heqa, hown, hst, hexp, rfl,
                by rw [if_pos hm], by rw [if_pos hm]⟩
            · rename_i hm
              cases h
              exact ⟨c, a, heqc, heqa, hown, hst, hexp, rfl,
                by rw [if_neg hm], by rw [if_neg hm]⟩
          · cases h
        · cases h
      · cases h

theorem submitResponse_already_resolved {caller : Pubkey} {caddr : Addr}
    {rh : String} {now : Int} {s : Ledger} {c : Challenge} {a : AgentAccount}
    (hc : List.lookup caddr s.challenges = some c)
    (ha : List.lookup c.agent s.agents = some a)
    (hown : caller = a.owner) (hst : c.status ≠ .Pending) :
    submitResponse caller caddr rh now s = .error .AlreadyResolved := by
  unfold submitResponse
  simp only [hc, ha]
  rw [if_pos hown]

theorem createChallengeAt_creates {caddr : Addr} {challenger : Pubkey}
    {agent : Addr} {q eh : String} {now : Int} {s : Ledger} {ag : AgentAccount}
    (ha : List.lookup agent s.agents = some ag)
    (hfree : List.lookup caddr s.challenges = none) :
    createChallengeAt caddr challenger agent q eh now s =
      .ok { s with challenges :=
              (caddr, ⟨agent, challenger, q, eh, .Pending, now, now + challengeWindow⟩)
                :: s.challenges } := by
  unfold createChallengeAt
  rw [ha, hfree]

theorem createChallengeAt_ok_inv {caddr : Addr} {challenger : Pubkey}
    {agent : Addr} {q eh : String} {now : Int} {s s' : Ledger}
    (h : createChallengeAt caddr challenger agent q eh now s = .ok s') :
    (∃ ag, List.lookup agent s.agents = some ag) ∧
    List.lookup caddr s.challenges = none ∧
    s' = { s with challenges :=
            (caddr, ⟨agent, challenger, q, eh, .Pending, now, now + challengeWindow⟩)
              :: s.challenges } := by
  unfold createChallengeAt at h
  split at h
  · cases h
  · rename_i ag hag
    split at h
    · cases h
    · rename_i hfree
      cases h
      exact ⟨⟨ag, hag⟩, hfree, rfl⟩

theorem createChallengeAt_in_use {caddr : Addr} {challenger : Pubkey}
    {agent : Addr} {q eh : String} {now : Int} {s : Ledger} {ag : AgentAccount}
    {c : Challenge} (ha : List.lookup agent s.agents = some ag)
    (hc : List.lookup caddr s.challenges = some c) :
    createChallengeAt caddr challenger agent q eh now s = .error .AccountInUse := by
  unfold createChallengeAt
  rw [ha, hc]

theorem flipBit_ne (x bit : Nat) : flipBit x bit ≠ x := by
  intro h
  have ht : (flipBit x bit).testBit bit = x.testBit bit := by rw [h]
  unfold flipBit at ht
  simp [Nat.testBit_xor, Nat.testBit_two_pow_self] at ht

theorem buildLevel_length : ∀ xs : List Nat, (buildLevel xs).length = (xs.length + 1) / 2
  | [] => by simp [buildLevel]
  | [x] => by simp [buildLevel]
  | x :: y :: rest => by
    have ih := buildLevel_length rest
    simp only [buildLevel, List.length_cons, ih]
    omega

theorem buildLevel_getD : ∀ (xs : List Nat) (k : Nat), 2 * k < xs.length →
    (buildLevel xs).getD k 0 =
      if 2 * k + 1 < xs.length then
        combineHash (xs.getD (2 * k) 0) (xs.getD (2 * k + 1) 0)
      else xs.getD (2 * k) 0
  | [], k => by simp
  | [x], k => by
    intro hk
    simp at hk
    subst hk
    simp [buildLevel]
  | x :: y :: rest, 0 => by
    intro hk
    simp [buildLevel]
  | x :: y :: rest, k + 1 => by
    intro hk
    have ih := buildLevel_getD rest k (by simp at hk; omega)
    simp only [buildLevel, List.length_cons] at *
    have h2 : 2 * (k + 1) = 2 * k + 2 := by omega
    simp only [List.getD_cons_succ]
    rw [ih]
    by_cases hlt : 2 * k + 1 < rest.length
    · rw [if_pos hlt, if_pos (by omega)]
      have e1 : 2 * (k + 1) - 1 = 2 * k + 1 := by omega
      simp [h2]
    · rw [if_neg hlt, if_neg (by omega)]
      simp [h2]

theorem computeRoot_append (leaf : Nat) (p q : List (Bool × Nat)) :
    computeRoot leaf (p ++ q) = computeRoot (computeRoot leaf p) q := by
  induction p generalizing leaf with
  | nil => simp [computeRoot]
  | cons hd tl ih => simp [computeRoot, ih]

theorem genProof_correct_aux : ∀ (fuel : Nat) (xs : List Nat) (i : Nat),
    xs.length ≤ fuel → i < xs.length →
    computeRoot (xs.getD i 0) (genProofAux fuel xs i) = merkleRootAux fuel xs := by
  intro fuel
  induction fuel with
  | zero =>
    intro xs i hf hi
    omega
  | succ fuel ih =>
    intro xs i hf hi
    by_cases hlen : xs.length ≤ 1
    · have hi0 : i = 0 := by omega
      subst hi0
      match xs, hlen, hi with
      | [x], _, _ =>
        simp [genProofAux, computeRoot, merkleRootAux]
    · have hstep : computeRoot (xs.getD i 0)
          ((if i % 2 = 0 then
              (if i + 1 < xs.length then [(false, xs.getD (i + 1) 0)] else [])
            else [(true, xs.getD (i - 1) 0)])) =
          (buildLevel xs).getD (i / 2) 0 := by
        by_cases hpar : i % 2 = 0
        · rw [if_pos hpar]
          by_cases hnext : i + 1 < xs.length
          · rw [if_pos hnext]
            rw [buildLevel_getD xs (i / 2) (by omega)]
            rw [if_pos (by omega)]
            have e1 : 2 * (i / 2) = i := by omega
            rw [e1]
            simp [computeRoot]
          · rw [if_neg hnext]
            rw [buildLevel_getD xs (i / 2) (by omega)]
            rw [if_neg (by omega)]
            have e1 : 2 * (i / 2) = i := by omega
            rw [e1]
            simp [computeRoot]
        · rw [if_neg hpar]
          rw [buildLevel_getD xs (i / 2) (by omega)]
          rw [if_pos (by omega)]
          have e1 : 2 * (i / 2) = i - 1 := by omega
          rw [e1, (by omega : i - 1 + 1 = i)]
          simp [computeRoot]
      have hgl : (buildLevel xs).length = (xs.length + 1) / 2 := buildLevel_length xs
      have hrec := ih (buildLevel xs) (i / 2) (by omega) (by omega)
      have hgp : genProofAux (fuel + 1) xs i =
          (if i % 2 = 0 then
            (if i + 1 < xs.length then [(false, xs.getD (i + 1) 0)] else [])
           else [(true, xs.getD (i - 1) 0)]) ++ genProofAux fuel (buildLevel xs) (i / 2) := by
        simp only [genProofAux]
        rw [if_neg hlen]
      have hmr : merkleRootAux (fuel + 1) xs = merkleRootAux fuel (buildLevel xs) := by
        match xs, hlen with
        | [], h => exact absurd (by simp) h
        | [x], h => exact absurd (by simp) h
        | x :: y :: rest, _ => rfl
      rw [hgp, computeRoot_append, hstep, hrec, hmr]

theorem combineHash_inj {a b c d : Nat} (h : combineHash a b = combineHash c d) :
    a = c ∧ b = d := Nat.pair_eq_pair.mp h

theorem computeRoot_inj_leaf : ∀ (path : List (Bool × Nat)) {l1 l2 : Nat},
    computeRoot l1 path = computeRoot l2 path → l1 = l2 := by
  intro path
  induction path with
  | nil => intro l1 l2 h; exact h
  | cons p rest ih =>
    intro l1 l2 h
    simp only [computeRoot] at h
    have := ih h
    by_cases hp : p.1
    · rw [if_pos hp, if_pos hp] at this
      exact (combineHash_inj this).2
    · rw [if_neg hp, if_neg hp] at this
      exact (combineHash_inj this).1

theorem computeRoot_flipProofBit_ne : ∀ (path : List (Bool × Nat)) (j bit : Nat)
    (leaf : Nat), j < path.length →
    computeRoot leaf (flipProofBit path j bit) ≠ computeRoot leaf path := by
  intro path
  induction path with
  | nil => intro j bit leaf hj; simp at hj
  | cons p rest ih =>
    intro j bit leaf hj h
    cases j with
    | zero =>
      simp only [flipProofBit, computeRoot] at h
      have := computeRoot_inj_leaf rest h
      by_cases hp : p.1
      · rw [if_pos hp, if_pos hp] at this
        exact flipBit_ne p.2 bit (combineHash_inj this).1
      · rw [if_neg hp, if_neg hp] at this
        exact flipBit_ne p.2 bit (combineHash_inj this).2
    | succ j =>
      simp only [flipProofBit, computeRoot] at h
      exact ih j bit _ (by simpa using hj) h

/-! ## Digest lemmas -/

theorem sha256Round_length (wt kt : Nat) (regs : List Nat) :
    (sha256Round wt kt regs).length = regs.length := by
  unfold sha256Round
  split
  · simp
  · rfl

theorem sha256Rounds_length (ws : List Nat) : ∀ (ks regs : List Nat),
    (sha256Rounds ws ks regs).length = regs.length := by
  induction ws with
  | nil => intro ks regs; rfl
  | cons wt ws2 ih =>
    intro ks regs
    cases ks with
    | nil => rfl
    | cons kt ks2 =>
      show (sha256Rounds ws2 ks2 (sha256Round wt kt regs)).length = regs.length
      rw [ih, sha256Round_length]

theorem sha256Compress_length (hv block : List Nat) :
    (sha256Compress hv block).length = hv.length := by
  unfold sha256Compress
  rw [List.length_map, List.length_zip, sha256Rounds_length]
  omega

theorem sha256_length (msg : List Nat) : (sha256 msg).length = 32 := by
  unfold sha256
  have hv8 : ((toBlocks (bytesToWords32 (sha256Pad msg))).foldl sha256Compress
      sha256InitHash).length = 8 := by
    generalize toBlocks (bytesToWords32 (sha256Pad msg)) = blocks
    have : ∀ (bs : List (List Nat)) (hv : List Nat),
        (bs.foldl sha256Compress hv).length = hv.length := by
      intro bs
      induction bs with
      | nil => intro hv; rfl
      | cons b rest ih =>
        intro hv
        simp only [List.foldl]
        rw [ih, sha256Compress_length]
    rw [this]
    rfl
  generalize (toBlocks (bytesToWords32 (sha256Pad msg))).foldl sha256Compress
      sha256InitHash = hv at hv8 ⊢
  have hflat : ∀ hv : List Nat,
      ((hv.map (fun w => [w / 16777216 % 256, w / 65536 % 256, w / 256 % 256, w % 256])).flatten).length =
        4 * hv.length := by
    intro hv
    induction hv with
    | nil => rfl
    | cons w rest ih => simp [ih]; omega
  rw [hflat, hv8]

/-- Every byte of a SHA-256 digest is below 256. -/
theorem sha256_bytes_lt (msg : List Nat) : ∀ b ∈ sha256 msg, b < 256 := by
  unfold sha256
  intro b hb
  rcases List.mem_flatten.mp hb with ⟨l, hl, hbl⟩
  rcases List.mem_map.mp hl with ⟨w, _, hw⟩
  subst hw
  simp at hbl
  rcases hbl with h | h | h | h <;> subst h <;> exact Nat.mod_lt _ (by omega)

theorem hexDigit_inj : ∀ m, m < 16 → ∀ n, n < 16 → hexDigit m = hexDigit n → m = n := by
  decide

theorem toHex_length (bs : List Nat) : (toHex bs).length = 2 * bs.length := by
  unfold toHex
  show ((bs.map (fun b => [hexDigit (b / 16), hexDigit (b % 16)])).flatten).length = 2 * bs.length
  induction bs with
  | nil => rfl
  | cons b rest ih => simp_all; omega

theorem toHex_inj : ∀ (bs1 bs2 : List Nat), (∀ b ∈ bs1, b < 256) → (∀ b ∈ bs2, b < 256) →
    toHex bs1 = toHex bs2 → bs1 = bs2 := by
  intro bs1
  induction bs1 with
  | nil =>
    intro bs2 _ _ h
    cases bs2 with
    | nil => rfl
    | cons b t =>
      have := congrArg String.length h
      rw [toHex_length, toHex_length] at this
      simp at this
  | cons b1 t1 ih =>
    intro bs2 hb1 hb2 h
    cases bs2 with
    | nil =>
      have := congrArg String.length h
      rw [toHex_length, toHex_length] at this
      simp at this
    | cons b2 t2 =>
      unfold toHex at h
      have hdata := congrArg String.data h
      simp only [List.map_cons, List.flatten_cons] at hdata
      have hcons : hexDigit (b1 / 16) = hexDigit (b2 / 16) ∧
          hexDigit (b1 % 16) = hexDigit (b2 % 16) ∧
          (t1.map (fun b => [hexDigit (b / 16), hexDigit (b % 16)])).flatten =
          (t2.map (fun b => [hexDigit (b / 16), hexDigit (b % 16)])).flatten := by
        have h1 := hdata
        simp only [List.cons_append, List.nil_append, List.cons.injEq] at h1
        exact ⟨h1.1, h1.2.1, h1.2.2⟩
      have hblt1 : b1 < 256 := hb1 b1 (List.mem_cons_self _ _)
      have hblt2 : b2 < 256 := hb2 b2 (List.mem_cons_self _ _)
      have e1 : b1 / 16 = b2 / 16 :=
        hexDigit_inj _ (by omega) _ (by omega) hcons.1
      have e2 : b1 % 16 = b2 % 16 :=
        hexDigit_inj _ (by omega) _ (by omega) hcons.2.1
      have hb : b1 = b2 := by omega
      have ht : t1 = t2 := by
        apply ih t2 (fun b hb => hb1 b (List.mem_cons_of_mem _ hb))
          (fun b hb => hb2 b (List.mem_cons_of_mem _ hb))
        unfold toHex
        exact congrArg String.mk hcons.2.2
      rw [hb, ht]

/-- The two client-side answer-fingerprint functions agree on every
plaintext, and the fingerprint determines and is determined by the
SHA-256 digest of the UTF-8 plaintext. -/
theorem hashAnswer_eq_iff (p1 p2 : String) :
    hashAnswer p1 = hashAnswer p2 ↔ sha256 (utf8Bytes p1) = sha256 (utf8Bytes p2) := by
  constructor
  · intro h
    exact toHex_inj _ _ (sha256_bytes_lt _) (sha256_bytes_lt _) h
  · intro h
    unfold hashAnswer
    rw [h]

theorem registerAgent_ok_inv {owner : Pubkey} {name modelHash capabilities : String}
    {now : Int} {s s' : Ledger}
    (h : registerAgent owner name modelHash capabilities now s = .ok s') :
    ∃ r, s.registry = some r ∧
      isValidName name = true ∧ isValidModelHash modelHash = true ∧
      List.lookup (agentAddr owner r.totalAgents) s.agents = none ∧
      s' = { s with
             registry := some ⟨r.admin, r.totalAgents + 1⟩,
             agents := (agentAddr owner r.totalAgents,
               ⟨owner, r.totalAgents, name, modelHash, capabilities,
                initialReputation, 0, 0, false, now, now⟩) :: s.agents } := by
  unfold registerAgent at h
  split at h
  · cases h
  · rename_i r hr
    split at h
    · cases h
    · rename_i hn
      split at h
      · cases h
      · rename_i hf
        split at h
        · cases h
        · rename_i hfree
          cases h
          exact ⟨r, hr, by simpa using hn, by simpa using hf, hfree, rfl⟩

theorem assignedIds_range (rs : List RegInput) : ∀ (s : Ledger) (reg : RegistryState),
    s.registry = some reg → allRegsSucceed rs s = true →
    assignedIds rs s = List.range' reg.totalAgents rs.length ∧
    totalAgentsOf (runRegs rs s) = reg.totalAgents + rs.length := by
  induction rs with
  | nil =>
    intro s reg hr _
    simp [assignedIds, runRegs, totalAgentsOf, hr]
  | cons r rest ih =>
    intro s reg hr hall
    unfold allRegsSucceed at hall
    rcases hstep : regStep r s with e | s'
    · rw [hstep] at hall
      cases hall
    · rw [hstep] at hall
      rcases registerAgent_ok_inv hstep with ⟨reg2, hr2, _, _, _, hs'⟩
      rw [hr] at hr2
      cases hr2
      have hreg' : s'.registry = some ⟨reg.admin, reg.totalAgents + 1⟩ := by
        rw [hs']
      rcases ih s' ⟨reg.admin, reg.totalAgents + 1⟩ hreg' hall with ⟨hids, hcount⟩
      constructor
      · unfold assignedIds
        simp only [hstep, hr, List.length_cons]
        rw [hids, List.range'_succ]
      · unfold runRegs
        simp only [hstep]
        rw [hcount]
        simp
        omega

/-! ## Claims -/

/-- C7: `initialize_registry` on an uninitialized system allocates the
singleton, sets the admin to the caller and zeroes the counter; every
subsequent call fails with `AlreadyInitialized` and leaves the existing
registry (admin and counter) unchanged, so the failure is safely
retryable. -/
theorem claim_C7_initialize_idempotent (admin : Pubkey) (s : Ledger) :
    (s.registry = none →
      initRegistry admin s = .ok { s with registry := some ⟨admin, 0⟩ }) ∧
    (∀ r, s.registry = some r →
      initRegistry admin s = .error .AlreadyInitialized ∧
      applyOp (Op.initRegistry admin) s = s) ∧
    (s.registry = none → ∀ admin2 : Pubkey,
      initRegistry admin2 (applyOp (Op.initRegistry admin) s) = .error .AlreadyInitialized ∧
      applyOp (Op.initRegistry admin2) (applyOp (Op.initRegistry admin) s) =
        applyOp (Op.initRegistry admin) s ∧
      (applyOp (Op.initRegistry admin) s).registry = some ⟨admin, 0⟩) := by
  refine ⟨?_, ?_, ?_⟩
  · intro hr
    unfold initRegistry
    rw [hr]
  · intro r hr
    constructor
    · unfold initRegistry
      rw [hr]
    · unfold applyOp step initRegistry
      rw [hr]
  · intro hr admin2
    have happ : applyOp (Op.initRegistry admin) s = { s with registry := some ⟨admin, 0⟩ } := by
      unfold applyOp step initRegistry
      rw [hr]
    rw [happ]
    refine ⟨rfl, ?_, rfl⟩
    unfold applyOp step initRegistry
    rfl

/-- Witness for C7 at the empty ledger with admin key 1 and retry key 2. -/
theorem claim_C7_witness :
    initRegistry 1 emptyLedger = .ok { emptyLedger with registry := some ⟨1, 0⟩ } ∧
    initRegistry 2 (applyOp (Op.initRegistry 1) emptyLedger) = .error .AlreadyInitialized := by
  have h := claim_C7_initialize_idempotent 1 emptyLedger
  exact ⟨h.1 rfl, (h.2.2 rfl 2).1⟩

/-- C9: Address derivation is deterministic and pure: identical seed
tuples always derive identical addresses (derivation is a function of the
seeds alone, with no side effects); it fails only with `InvalidSeed`, and
does so exactly when some seed violates the host chain's length/format
constraints; and a derived address determines its seed tuple, which is
what callers rely on for collision-based uniqueness. -/
theorem claim_C9_derivation_deterministic :
    (∀ s1 s2 : List (List Nat), s1 = s2 → findProgramAddress s1 = findProgramAddress s2) ∧
    (∀ seeds : List (List Nat),
      (findProgramAddress seeds).isOk = true ↔ seedsWellFormed seeds = true) ∧
    (∀ (seeds : List (List Nat)) (e : DeriveError),
      findProgramAddress seeds = .error e →
      e = .InvalidSeed ∧ seedsWellFormed seeds = false) ∧
    (∀ (s1 s2 : List (List Nat)) (a : Nat),
      findProgramAddress s1 = .ok a → findProgramAddress s2 = .ok a → s1 = s2) := by
  refine ⟨?_, findProgramAddress_ok_iff, ?_, fun _ _ _ h1 h2 => findProgramAddress_inj h1 h2⟩
  · intro s1 s2 h
    rw [h]
  · intro seeds e h
    unfold findProgramAddress at h
    by_cases hw : seedsWellFormed seeds = true
    · rw [if_pos hw] at h
      cases h
    · rw [if_neg hw] at h
      cases h
      exact ⟨rfl, by simpa using hw⟩

/-- Witness for C9 on the challenge seed tuple (tag byte list, agent
address bytes, challenger bytes). -/
theorem claim_C9_witness :
    findProgramAddress [[99, 104], [7], [3]] = findProgramAddress [[99, 104], [7], [3]] ∧
    ((findProgramAddress [[99, 104], [7], [3]]).isOk = true ↔
      seedsWellFormed [[99, 104], [7], [3]] = true) ∧
    seedsWellFormed [[99, 104], [7], [3]] = true := by
  refine ⟨claim_C9_derivation_deterministic.1 _ _ rfl,
    claim_C9_derivation_deterministic.2.1 _, by decide⟩

/-- C5: starting from a freshly initialized registry, every successful
`register_agent` call is assigned `agent_id = total_agents` at that
moment and then increments the counter, so the assigned ids are exactly
0, 1, ..., N-1 and the counter after N successful registrations is N. -/
theorem claim_C5_agent_ids_sequential (admin : Pubkey) (rs : List RegInput)
    (hall : allRegsSucceed rs (applyOp (Op.initRegistry admin) emptyLedger) = true) :
    assignedIds rs (applyOp (Op.initRegistry admin) emptyLedger) = List.range rs.length ∧
    totalAgentsOf (runRegs rs (applyOp (Op.initRegistry admin) emptyLedger)) = rs.length := by
  have hreg : (applyOp (Op.initRegistry admin) emptyLedger).registry = some ⟨admin, 0⟩ := rfl
  have h := assignedIds_range rs (applyOp (Op.initRegistry admin) emptyLedger) ⟨admin, 0⟩ hreg hall
  rcases h with ⟨hids, hcount⟩
  constructor
  · rw [hids, List.range_eq_range']
  · rw [hcount]
    simp

/-- Witness for C5: two concrete registrations out of a fresh registry
get ids [0, 1] and leave the counter at 2. -/
theorem claim_C5_witness :
    assignedIds
        [⟨2, "TestAgent", wHash, "analysis,coding", 100⟩,
         ⟨3, "OtherAgent", wHash, "trading", 101⟩]
        (applyOp (Op.initRegistry 1) emptyLedger) = [0, 1] ∧
    totalAgentsOf (runRegs
        [⟨2, "TestAgent", wHash, "analysis,coding", 100⟩,
         ⟨3, "OtherAgent", wHash, "trading", 101⟩]
        (applyOp (Op.initRegistry 1) emptyLedger)) = 2 := by
  have h := claim_C5_agent_ids_sequential 1
    [⟨2, "TestAgent", wHash, "analysis,coding", 100⟩,
     ⟨3, "OtherAgent", wHash, "trading", 101⟩] (by decide)
  simpa using h

/-- C6: Merkle round-trip: for every list of leaf hashes, the root built
by the batching construction together with the generated proof path for
any included leaf makes `verify_merkle_proof` return true; and flipping
any single bit of the leaf hash, or of any sibling hash in the proof
path, makes it return false.  `verify_merkle_proof` recomputes the root
by iteratively hashing the leaf with each proof-path sibling in order
and comparing to the committed root. -/
theorem claim_C6_merkle_roundtrip (xs : List Nat) (i : Nat) (hi : i < xs.length) :
    verifyMerkleProof (xs.getD i 0) (genProof xs i) (merkleRoot xs) = true ∧
    (∀ bit : Nat,
      verifyMerkleProof (flipBit (xs.getD i 0) bit) (genProof xs i) (merkleRoot xs) = false) ∧
    (∀ j bit : Nat, j < (genProof xs i).length →
      verifyMerkleProof (xs.getD i 0) (flipProofBit (genProof xs i) j bit) (merkleRoot xs)
        = false) := by
  have hroot : computeRoot (xs.getD i 0) (genProof xs i) = merkleRoot xs :=
    genProof_correct_aux xs.length xs i (Nat.le_refl _) hi
  refine ⟨?_, ?_, ?_⟩
  · unfold verifyMerkleProof
    rw [hroot]
    simp
  · intro bit
    unfold verifyMerkleProof
    rw [Bool.eq_false_iff]
    intro hbeq
    have heq : computeRoot (flipBit (xs.getD i 0) bit) (genProof xs i) = merkleRoot xs := by
      simpa using hbeq
    rw [← hroot] at heq
    exact flipBit_ne _ bit (computeRoot_inj_leaf _ heq)
  · intro j bit hj
    unfold verifyMerkleProof
    rw [Bool.eq_false_iff]
    intro hbeq
    have heq : computeRoot (xs.getD i 0) (flipProofBit (genProof xs i) j bit) = merkleRoot xs := by
      simpa using hbeq
    rw [← hroot] at heq
    exact computeRoot_flipProofBit_ne (genProof xs i) j bit _ hj heq

/-- Witness for C6 at the five-leaf batch [1,2,3,4,5], leaf index 2. -/
theorem claim_C6_witness :
    verifyMerkleProof (([1, 2, 3, 4, 5] : List Nat).getD 2 0) (genProof [1, 2, 3, 4, 5] 2)
      (merkleRoot [1, 2, 3, 4, 5]) = true ∧
    verifyMerkleProof (flipBit (([1, 2, 3, 4, 5] : List Nat).getD 2 0) 0)
      (genProof [1, 2, 3, 4, 5] 2) (merkleRoot [1, 2, 3, 4, 5]) = false ∧
    verifyMerkleProof (([1, 2, 3, 4, 5] : List Nat).getD 2 0)
      (flipProofBit (genProof [1, 2, 3, 4, 5] 2) 1 5) (merkleRoot [1, 2, 3, 4, 5]) = false := by
  have h := claim_C6_merkle_roundtrip [1, 2, 3, 4, 5] 2 (by decide)
  exact ⟨h.1, h.2.1 0, h.2.2 1 5 (by decide)⟩

theorem isValidName_iff (s : String) :
    isValidName s = true ↔ 3 ≤ s.length ∧ s.length ≤ 64 := by
  simp [isValidName]

theorem isValidModelHash_iff (s : String) :
    isValidModelHash s = true ↔
      (s.data.take 7 = "sha256:".data ∧ (s.data.drop 7).length = 64 ∧
       ∀ c ∈ s.data.drop 7, isHexDigit c = true) := by
  simp [isValidModelHash, List.all_eq_true, and_assoc]

theorem registerAgent_eval {owner : Pubkey} {name modelHash capabilities : String}
    {now : Int} {s : Ledger} {r : RegistryState} (hr : s.registry = some r)
    (hfree : List.lookup (agentAddr owner r.totalAgents) s.agents = none) :
    registerAgent owner name modelHash capabilities now s =
      if isValidName name = false then .error .InvalidName
      else if isValidModelHash modelHash = false then .error .InvalidFingerprint
      else .ok { s with
                 registry := some ⟨r.admin, r.totalAgents + 1⟩,
                 agents := (agentAddr owner r.totalAgents,
                   ⟨owner, r.totalAgents, name, modelHash, capabilities,
                    initialReputation, 0, 0, false, now, now⟩) :: s.agents } := by
  unfold registerAgent
  simp only [hr]
  rcases hn : isValidName name <;> rcases hf : isValidModelHash modelHash <;>
    simp [hn, hf, hfree]

/-- C8: `register_agent` succeeds exactly when the name has between 3 and
64 characters and the model fingerprint is `sha256:` followed by a
64-character hexadecimal digest; on success the created Agent record has
reputation 5000 and verified = false; on a malformed name it fails with
`InvalidName` and on a malformed fingerprint with `InvalidFingerprint`,
in both cases creating no record (the ledger is unchanged). -/
theorem claim_C8_register_validation (owner : Pubkey)
    (name modelHash capabilities : String) (now : Int) (s : Ledger)
    (r : RegistryState) (hr : s.registry = some r)
    (hfree : List.lookup (agentAddr owner r.totalAgents) s.agents = none) :
    (stepOk (Op.registerAgent owner name modelHash capabilities now) s = true ↔
      (3 ≤ name.length ∧ name.length ≤ 64 ∧
       modelHash.data.take 7 = "sha256:".data ∧
       (modelHash.data.drop 7).length = 64 ∧
       ∀ c ∈ modelHash.data.drop 7, isHexDigit c = true)) ∧
    (stepOk (Op.registerAgent owner name modelHash capabilities now) s = true →
      List.lookup (agentAddr owner r.totalAgents)
          (applyOp (Op.registerAgent owner name modelHash capabilities now) s).agents =
        some ⟨owner, r.totalAgents, name, modelHash, capabilities, 5000, 0, 0, false, now, now⟩ ∧
      (applyOp (Op.registerAgent owner name modelHash capabilities now) s).registry =
        some ⟨r.admin, r.totalAgents + 1⟩) ∧
    (isValidName name = false →
      registerAgent owner name modelHash capabilities now s = .error .InvalidName ∧
      applyOp (Op.registerAgent owner name modelHash capabilities now) s = s) ∧
    (isValidName name = true → isValidModelHash modelHash = false →
      registerAgent owner name modelHash capabilities now s = .error .InvalidFingerprint ∧
      applyOp (Op.registerAgent owner name modelHash capabilities now) s = s) := by
  have heval := @registerAgent_eval owner name modelHash capabilities now s r hr hfree
  have hstep : step (Op.registerAgent owner name modelHash capabilities now) s =
      registerAgent owner name modelHash capabilities now s := rfl
  refine ⟨?_, ?_, ?_, ?_⟩
  · unfold stepOk
    rw [hstep, heval]
    constructor
    · intro hok
      rcases hn : isValidName name <;> rcases hf : isValidModelHash modelHash <;>
        rw [hn, hf] at hok <;> simp at hok
      have h1 := (isValidName_iff name).mp hn
      have h2 := (isValidModelHash_iff modelHash).mp hf
      exact ⟨h1.1, h1.2, h2.1, h2.2.1, h2.2.2⟩
    · intro hcond
      have hn : isValidName name = true := (isValidName_iff name).mpr ⟨hcond.1, hcond.2.1⟩
      have hf : isValidModelHash modelHash = true :=
        (isValidModelHash_iff modelHash).mpr ⟨hcond.2.2.1, hcond.2.2.2.1, hcond.2.2.2.2⟩
      rw [hn, hf]
      simp
  · intro hok
    unfold stepOk at hok
    rw [hstep, heval] at hok
    unfold applyOp
    rw [hstep, heval]
    rcases hn : isValidName name <;> rcases hf : isValidModelHash modelHash <;>
      rw [hn, hf] at hok <;> simp at hok
    constructor
    · simp [List.lookup_cons_self]
      rfl
    · rfl
  · intro hn
    rw [heval, if_pos (by rw [hn])]
    refine ⟨rfl, ?_⟩
    unfold applyOp
    rw [hstep, heval, if_pos (by rw [hn])]
  · intro hn hf
    rw [heval, if_neg (by rw [hn]; simp), if_pos (by rw [hf])]
    refine ⟨rfl, ?_⟩
    unfold applyOp
    rw [hstep, heval, if_neg (by rw [hn]; simp), if_pos (by rw [hf])]

/-- Witness for C8: a valid registration on the fixture ledger succeeds
with reputation 5000, and an overly short name is rejected with
`InvalidName`. -/
theorem claim_C8_witness :
    stepOk (Op.registerAgent 4 "Alpha" wHash "analysis" 50) wLedger = true ∧
    registerAgent 4 "ab" wHash "analysis" 50 wLedger = .error .InvalidName := by
  have h := claim_C8_register_validation 4 "Alpha" wHash "analysis" 50 wLedger ⟨1, 1⟩
    (by decide) (by decide)
  have h2 := claim_C8_register_validation 4 "ab" wHash "analysis" 50 wLedger ⟨1, 1⟩
    (by decide) (by decide)
  exact ⟨h.1.mpr (by decide), (h2.2.2.1 (by decide)).1⟩

theorem repDelta_pass_eq (a : AgentAccount) (now : Int) (hlo : 0 ≤ a.reputationScore) :
    applyReputationDelta a passDelta now =
      { a with reputationScore := min 10000 (a.reputationScore + 100),
               challengesPassed := a.challengesPassed + 1, updatedAt := now } := by
  unfold applyReputationDelta passDelta maxReputation
  rw [if_pos (show (0 : Int) < 100 by norm_num), if_pos (show (0 : Int) < 100 by norm_num)]
  congr 1
  omega

theorem repDelta_fail_eq (a : AgentAccount) (now : Int) (hhi : a.reputationScore ≤ 10000) :
    applyReputationDelta a failDelta now =
      { a with reputationScore := max 0 (a.reputationScore - 50),
               challengesFailed := a.challengesFailed + 1, updatedAt := now } := by
  unfold applyReputationDelta failDelta maxReputation
  rw [if_neg (show ¬((0 : Int) < -50) by norm_num),
    if_neg (show ¬((0 : Int) < -50) by norm_num)]
  congr 1
  omega

/-- Counterexample for C1 as stated: on the fixture ledger whose agent
holds reputation 9950, a matching submission succeeds and leaves the
reputation at 10000 (the engine clamps at the cap), not at
9950 + 100 = 10050 as the unconditional "+100" reading of the claim
predicts. -/
theorem claim_C1_counterexample :
    stepOk (Op.submitResponse 2 wChalAddr "h4" 200) cexLedger = true ∧
    (match List.lookup wAgentAddr
        (applyOp (Op.submitResponse 2 wChalAddr "h4" 200) cexLedger).agents with
     | some a => a.reputationScore
     | none => 0) = 10000 ∧
    ¬((10000 : Int) = 9950 + 100) := by decide

/-- C1 (amended): for every Pending, non-expired challenge whose agent has
reputation within [0, 10000], an owner submission with a matching
response hash sets the status to ResolvedPass and the reputation to
min(10000, old + 100) with challengesPassed incremented, and a
mismatching submission sets ResolvedFail and max(0, old - 50) with
challengesFailed incremented — the +100 / -50 deltas clamped to the
score bounds — with the status write and the reputation change landing
in the single atomically applied successor state; in particular from
reputation 5000 a mismatch leaves 4950 and bumps challengesFailed. -/
theorem claim_C1_resolution_deltas (caller : Pubkey) (caddr : Addr) (rh : String)
    (now : Int) (s : Ledger) (c : Challenge) (a : AgentAccount)
    (hc : List.lookup caddr s.challenges = some c)
    (ha : List.lookup c.agent s.agents = some a)
    (hown : caller = a.owner) (hst : c.status = .Pending) (hexp : now ≤ c.expiresAt)
    (hlo : 0 ≤ a.reputationScore) (hhi : a.reputationScore ≤ 10000) :
    stepOk (Op.submitResponse caller caddr rh now) s = true ∧
    List.lookup caddr (applyOp (Op.submitResponse caller caddr rh now) s).challenges =
      some { c with status := if rh = c.expectedHash then .ResolvedPass else .ResolvedFail } ∧
    (rh = c.expectedHash →
      List.lookup c.agent (applyOp (Op.submitResponse caller caddr rh now) s).agents =
        some { a with reputationScore := min 10000 (a.reputationScore + 100),
                      challengesPassed := a.challengesPassed + 1, updatedAt := now }) ∧
    (rh ≠ c.expectedHash →
      List.lookup c.agent (applyOp (Op.submitResponse caller caddr rh now) s).agents =
        some { a with reputationScore := max 0 (a.reputationScore - 50),
                      challengesFailed := a.challengesFailed + 1, updatedAt := now }) ∧
    (a.reputationScore = 5000 → rh ≠ c.expectedHash →
      List.lookup c.agent (applyOp (Op.submitResponse caller caddr rh now) s).agents =
        some { a with reputationScore := 4950,
                      challengesFailed := a.challengesFailed + 1, updatedAt := now }) := by
  have hres := @submitResponse_resolves caller caddr rh now s c a hc ha hown hst hexp
  have hstep : step (Op.submitResponse caller caddr rh now) s =
      submitResponse caller caddr rh now s := rfl
  have happ : applyOp (Op.submitResponse caller caddr rh now) s =
      { s with
        challenges := updateAcct s.challenges caddr
          ({ c with status := if rh = c.expectedHash then .ResolvedPass else .ResolvedFail }),
        agents := updateAcct s.agents c.agent
          (applyReputationDelta a (if rh = c.expectedHash then passDelta else failDelta) now) } := by
    unfold applyOp
    rw [hstep, hres]
  refine ⟨?_, ?_, ?_, ?_, ?_⟩
  · unfold stepOk
    rw [hstep, hres]
  · rw [happ]
    show List.lookup caddr (updateAcct s.challenges caddr _) = _
    rw [lookup_updateAcct_self, hc]
    rfl
  · intro hm
    rw [happ]
    show List.lookup c.agent (updateAcct s.agents c.agent _) = _
    rw [lookup_updateAcct_self, ha]
    rw [if_pos hm]
    rw [repDelta_pass_eq a now hlo]
    rfl
  · intro hm
    rw [happ]
    show List.lookup c.agent (updateAcct s.agents c.agent _) = _
    rw [lookup_updateAcct_self, ha]
    rw [if_neg hm]
    rw [repDelta_fail_eq a now hhi]
    rfl
  · intro h5000 hm
    rw [happ]
    show List.lookup c.agent (updateAcct s.agents c.agent _) = _
    rw [lookup_updateAcct_self, ha]
    rw [if_neg hm]
    rw [repDelta_fail_eq a now hhi, h5000]
    norm_num

/-- Witness for C1 on the fixture ledger: a mismatching submission from
reputation 5000 leaves 4950 and challengesFailed = 1. -/
theorem claim_C1_witness :
    List.lookup wAgentAddr
        (applyOp (Op.submitResponse 2 wChalAddr "h5" 200) wLedger).agents =
      some { wAgent with reputationScore := 4950, challengesFailed := 1, updatedAt := 200 } := by
  have h := claim_C1_resolution_deltas 2 wChalAddr "h5" 200 wLedger wChallenge wAgent
    (by decide) (by decide) (by decide) (by decide) (by decide) (by decide) (by decide)
  have h2 := h.2.2.2.2 (by decide) (by decide)
  simpa using h2

/-- C3: once a challenge has been resolved, a second resolution attempt by
the owner fails with `AlreadyResolved` and changes nothing: the whole
ledger — in particular the agent's reputation score and both counters —
is exactly as the first resolution left it. -/
theorem claim_C3_second_resolution_fails (caller : Pubkey) (caddr : Addr)
    (rh rh2 : String) (now now2 : Int) (s s' : Ledger)
    (h : submitResponse caller caddr rh now s = .ok s') :
    submitResponse caller caddr rh2 now2 s' = .error .AlreadyResolved ∧
    applyOp (Op.submitResponse caller caddr rh2 now2) s' = s' := by
  rcases submitResponse_ok_inv h with
    ⟨c, a, hc, ha, hown, _, _, _, hch', hag'⟩
  have hc' : List.lookup caddr s'.challenges =
      some { c with status := if rh = c.expectedHash then .ResolvedPass else .ResolvedFail } := by
    rw [hch', lookup_updateAcct_self, hc]
    rfl
  have hagent_eq : ({ c with
      status := if rh = c.expectedHash then .ResolvedPass else .ResolvedFail} : Challenge).agent
      = c.agent := rfl
  have ha' : List.lookup c.agent s'.agents =
      some (applyReputationDelta a (if rh = c.expectedHash then passDelta else failDelta) now) := by
    rw [hag', lookup_updateAcct_self, ha]
    rfl
  have hown' : caller =
      (applyReputationDelta a (if rh = c.expectedHash then passDelta else failDelta) now).owner := by
    rw [repDelta_owner]
    exact hown
  have hnp : ({ c with
      status := if rh = c.expectedHash then .ResolvedPass else .ResolvedFail} : Challenge).status
      ≠ .Pending := by
    show (if rh = c.expectedHash then ChallengeStatus.ResolvedPass else .ResolvedFail) ≠ .Pending
    by_cases hm : rh = c.expectedHash
    · rw [if_pos hm]
      intro hcontra
      cases hcontra
    · rw [if_neg hm]
      intro hcontra
      cases hcontra
  have herr := @submitResponse_already_resolved caller caddr rh2 now2 s' _ _ hc'
    (by rw [hagent_eq]; exact ha') hown' hnp
  refine ⟨herr, ?_⟩
  unfold applyOp
  have hstep2 : step (Op.submitResponse caller caddr rh2 now2) s' =
      submitResponse caller caddr rh2 now2 s' := rfl
  rw [hstep2, herr]

/-- Witness for C3 on the fixture ledger: resolving the fixture challenge
and submitting again yields `AlreadyResolved` with no state change. -/
theorem claim_C3_witness :
    submitResponse 2 wChalAddr "h4" 201
        (applyOp (Op.submitResponse 2 wChalAddr "h4" 200) wLedger) =
      .error .AlreadyResolved := by
  have hok : submitResponse 2 wChalAddr "h4" 200 wLedger =
      .ok (applyOp (Op.submitResponse 2 wChalAddr "h4" 200) wLedger) := rfl
  exact (claim_C3_second_resolution_fails 2 wChalAddr "h4" "h4" 200 201 wLedger
    (applyOp (Op.submitResponse 2 wChalAddr "h4" 200) wLedger) hok).1

theorem applyOp_ok {op : Op} {s s' : Ledger} (h : step op s = .ok s') :
    applyOp op s = s' := by
  unfold applyOp
  rw [h]

/-- C4: when a single-slot challenge already occupies the pair's derived
address, a second single-slot `create_challenge` for the same
(agent, challenger) pair fails with `AccountInUse` — the address is a
function of only the agent and the challenger, so the second call
collides; whereas two nonce-indexed `create_challenge_with_nonce` calls
for the same pair with different nonces both succeed, and the two
challenges resolve independently (resolving the first leaves the second
Pending and still resolvable). -/
theorem claim_C4_dual_addressing :
    (∀ (challenger : Pubkey) (agent : Addr) (q1 h1 : String) (now1 : Int)
        (q2 h2 : String) (now2 : Int) (s s' : Ledger),
      createChallenge challenger agent q1 h1 now1 s = .ok s' →
      createChallenge challenger agent q2 h2 now2 s' = .error .AccountInUse) ∧
    (∀ (challenger : Pubkey) (agent : Addr) (a : AgentAccount) (owner : Pubkey)
        (n1 n2 : Nat) (q1 h1 q2 h2 rh1 rh2 : String) (now now2 : Int) (s : Ledger),
      n1 ≠ n2 →
      List.lookup agent s.agents = some a →
      owner = a.owner →
      List.lookup (challengeNonceAddr agent challenger n1) s.challenges = none →
      List.lookup (challengeNonceAddr agent challenger n2) s.challenges = none →
      now2 ≤ now + challengeWindow →
      stepOk (Op.createChallengeWithNonce challenger agent n1 q1 h1 now) s = true ∧
      stepOk (Op.createChallengeWithNonce challenger agent n2 q2 h2 now)
        (applyOp (Op.createChallengeWithNonce challenger agent n1 q1 h1 now) s) = true ∧
      stepOk (Op.submitResponse owner (challengeNonceAddr agent challenger n1) rh1 now2)
        (applyOp (Op.createChallengeWithNonce challenger agent n2 q2 h2 now)
          (applyOp (Op.createChallengeWithNonce challenger agent n1 q1 h1 now) s)) = true ∧
      (List.lookup (challengeNonceAddr agent challenger n2)
        (applyOp (Op.submitResponse owner (challengeNonceAddr agent challenger n1) rh1 now2)
          (applyOp (Op.createChallengeWithNonce challenger agent n2 q2 h2 now)
            (applyOp (Op.createChallengeWithNonce challenger agent n1 q1 h1 now) s))).challenges).map
        Challenge.status = some .Pending ∧
      stepOk (Op.submitResponse owner (challengeNonceAddr agent challenger n2) rh2 now2)
        (applyOp (Op.submitResponse owner (challengeNonceAddr agent challenger n1) rh1 now2)
          (applyOp (Op.createChallengeWithNonce challenger agent n2 q2 h2 now)
            (applyOp (Op.createChallengeWithNonce challenger agent n1 q1 h1 now) s))) = true) := by
  constructor
  · intro challenger agent q1 h1 now1 q2 h2 now2 s s' h
    rcases createChallengeAt_ok_inv h with ⟨⟨ag, hag⟩, _, hs'⟩
    have hag' : List.lookup agent s'.agents = some ag := by
      rw [hs']
      exact hag
    have hocc : List.lookup (challengeAddr agent challenger) s'.challenges =
        some ⟨agent, challenger, q1, h1, .Pending, now1, now1 + challengeWindow⟩ := by
      rw [hs']
      exact List.lookup_cons_self
    exact createChallengeAt_in_use hag' hocc
  · intro challenger agent a owner n1 n2 q1 h1 q2 h2 rh1 rh2 now now2 s
      hn ha hown hfree1 hfree2 hexp
    have haddr : challengeNonceAddr agent challenger n2 ≠ challengeNonceAddr agent challenger n1 := by
      intro hcontra
      exact hn (challengeNonceAddr_inj hcontra).symm
    -- first creation
    have hc1 : createChallengeWithNonce challenger agent n1 q1 h1 now s =
        .ok { s with challenges :=
          (challengeNonceAddr agent challenger n1,
           ⟨agent, challenger, q1, h1, .Pending, now, now + challengeWindow⟩) :: s.challenges } :=
      createChallengeAt_creates ha hfree1
    have hs1 : applyOp (Op.createChallengeWithNonce challenger agent n1 q1 h1 now) s =
        { s with challenges :=
          (challengeNonceAddr agent challenger n1,
           ⟨agent, challenger, q1, h1, .Pending, now, now + challengeWindow⟩) :: s.challenges } := by
      exact @applyOp_ok (Op.createChallengeWithNonce challenger agent n1 q1 h1 now) s _ hc1
    -- second creation
    have hfree2' : List.lookup (challengeNonceAddr agent challenger n2)
        (applyOp (Op.createChallengeWithNonce challenger agent n1 q1 h1 now) s).challenges = none := by
      rw [hs1]
      show List.lookup _ (_ :: s.challenges) = none
      rw [lookup_cons_ne _ _ haddr]
      exact hfree2
    have ha1 : List.lookup agent
        (applyOp (Op.createChallengeWithNonce challenger agent n1 q1 h1 now) s).agents = some a := by
      rw [hs1]
      exact ha
    have hc2 : createChallengeWithNonce challenger agent n2 q2 h2 now
        (applyOp (Op.createChallengeWithNonce challenger agent n1 q1 h1 now) s) =
        .ok { (applyOp (Op.createChallengeWithNonce challenger agent n1 q1 h1 now) s) with
              challenges :=
          (challengeNonceAddr agent challenger n2,
           ⟨agent, challenger, q2, h2, .Pending, now, now + challengeWindow⟩) ::
            (applyOp (Op.createChallengeWithNonce challenger agent n1 q1 h1 now) s).challenges } :=
      createChallengeAt_creates ha1 hfree2'
    have hs2 : applyOp (Op.createChallengeWithNonce challenger agent n2 q2 h2 now)
        (applyOp (Op.createChallengeWithNonce challenger agent n1 q1 h1 now) s) =
        { (applyOp (Op.createChallengeWithNonce challenger agent n1 q1 h1 now) s) with
          challenges :=
          (challengeNonceAddr agent challenger n2,
           ⟨agent, challenger, q2, h2, .Pending, now, now + challengeWindow⟩) ::
            (applyOp (Op.createChallengeWithNonce challenger agent n1 q1 h1 now) s).challenges } := by
      exact @applyOp_ok (Op.createChallengeWithNonce challenger agent n2 q2 h2 now)
        (applyOp (Op.createChallengeWithNonce challenger agent n1 q1 h1 now) s) _ hc2
    -- lookups in the two-challenge state
    have hlc1 : List.lookup (challengeNonceAddr agent challenger n1)
        (applyOp (Op.createChallengeWithNonce challenger agent n2 q2 h2 now)
          (applyOp (Op.createChallengeWithNonce challenger agent n1 q1 h1 now) s)).challenges =
        some ⟨agent, challenger, q1, h1, .Pending, now, now + challengeWindow⟩ := by
      rw [hs2]
      show List.lookup _ (_ :: _) = _
      rw [lookup_cons_ne _ _ (fun hcontra => haddr hcontra.symm), hs1]
      exact List.lookup_cons_self
    have hlc2 : List.lookup (challengeNonceAddr agent challenger n2)
        (applyOp (Op.createChallengeWithNonce challenger agent n2 q2 h2 now)
          (applyOp (Op.createChallengeWithNonce challenger agent n1 q1 h1 now) s)).challenges =
        some ⟨agent, challenger, q2, h2, .Pending, now, now + challengeWindow⟩ := by
      rw [hs2]
      exact List.lookup_cons_self
    have ha2 : List.lookup agent
        (applyOp (Op.createChallengeWithNonce challenger agent n2 q2 h2 now)
          (applyOp (Op.createChallengeWithNonce challenger agent n1 q1 h1 now) s)).agents =
        some a := by
      rw [hs2, hs1]
      exact ha
    -- first resolution
    have hsub1 := @submitResponse_resolves owner (challengeNonceAddr agent challenger n1) rh1
      now2 _ _ _ hlc1 ha2 hown rfl hexp
    have hs3 : applyOp (Op.submitResponse owner (challengeNonceAddr agent challenger n1) rh1 now2)
        (applyOp (Op.createChallengeWithNonce challenger agent n2 q2 h2 now)
          (applyOp (Op.createChallengeWithNonce challenger agent n1 q1 h1 now) s)) =
        { (applyOp (Op.createChallengeWithNonce challenger agent n2 q2 h2 now)
            (applyOp (Op.createChallengeWithNonce challenger agent n1 q1 h1 now) s)) with
          challenges := updateAcct (applyOp (Op.createChallengeWithNonce challenger agent n2 q2 h2 now)
            (applyOp (Op.createChallengeWithNonce challenger agent n1 q1 h1 now) s)).challenges
            (challengeNonceAddr agent challenger n1)
            ({ (⟨agent, challenger, q1, h1, .Pending, now, now + challengeWindow⟩ : Challenge) with
               status := if rh1 = h1 then .ResolvedPass else .ResolvedFail }),
          agents := updateAcct (applyOp (Op.createChallengeWithNonce challenger agent n2 q2 h2 now)
            (applyOp (Op.createChallengeWithNonce challenger agent n1 q1 h1 now) s)).agents agent
            (applyReputationDelta a (if rh1 = h1 then passDelta else failDelta) now2) } := by
      exact @applyOp_ok (Op.submitResponse owner (challengeNonceAddr agent challenger n1) rh1 now2)
        (applyOp (Op.createChallengeWithNonce challenger agent n2 q2 h2 now)
          (applyOp (Op.createChallengeWithNonce challenger agent n1 q1 h1 now) s)) _ hsub1
    -- second challenge still pending after the first resolution
    have hlc2' : List.lookup (challengeNonceAddr agent challenger n2)
        (applyOp (Op.submitResponse owner (challengeNonceAddr agent challenger n1) rh1 now2)
          (applyOp (Op.createChallengeWithNonce challenger agent n2 q2 h2 now)
            (applyOp (Op.createChallengeWithNonce challenger agent n1 q1 h1 now) s))).challenges =
        some ⟨agent, challenger, q2, h2, .Pending, now, now + challengeWindow⟩ := by
      rw [hs3]
      show List.lookup _ (updateAcct _ _ _) = _
      rw [lookup_updateAcct_ne _ _ haddr]
      exact hlc2
    have ha3 : List.lookup agent
        (applyOp (Op.submitResponse owner (challengeNonceAddr agent challenger n1) rh1 now2)
          (applyOp (Op.createChallengeWithNonce challenger agent n2 q2 h2 now)
            (applyOp (Op.createChallengeWithNonce challenger agent n1 q1 h1 now) s))).agents =
        some (applyReputationDelta a (if rh1 = h1 then passDelta else failDelta) now2) := by
      rw [hs3]
      show List.lookup _ (updateAcct _ _ _) = _
      rw [lookup_updateAcct_self, ha2]
      rfl
    have hown3 : owner =
        (applyReputationDelta a (if rh1 = h1 then passDelta else failDelta) now2).owner := by
      rw [repDelta_owner]
      exact hown
    have hsub2 := @submitResponse_resolves owner (challengeNonceAddr agent challenger n2) rh2
      now2 _ _ _ hlc2' ha3 hown3 rfl hexp
    refine ⟨?_, ?_, ?_, ?_, ?_⟩
    · unfold stepOk
      have hst : step (Op.createChallengeWithNonce challenger agent n1 q1 h1 now) s =
          createChallengeWithNonce challenger agent n1 q1 h1 now s := rfl
      rw [hst, hc1]
    · unfold stepOk
      have hst : step (Op.createChallengeWithNonce challenger agent n2 q2 h2 now)
          (applyOp (Op.createChallengeWithNonce challenger agent n1 q1 h1 now) s) =
          createChallengeWithNonce challenger agent n2 q2 h2 now
            (applyOp (Op.createChallengeWithNonce challenger agent n1 q1 h1 now) s) := rfl
      rw [hst, hc2]
    · unfold stepOk
      have hst : step (Op.submitResponse owner (challengeNonceAddr agent challenger n1) rh1 now2)
          (applyOp (Op.createChallengeWithNonce challenger agent n2 q2 h2 now)
            (applyOp (Op.createChallengeWithNonce challenger agent n1 q1 h1 now) s)) =
          submitResponse owner (challengeNonceAddr agent challenger n1) rh1 now2
            (applyOp (Op.createChallengeWithNonce challenger agent n2 q2 h2 now)
              (applyOp (Op.createChallengeWithNonce challenger agent n1 q1 h1 now) s)) := rfl
      rw [hst, hsub1]
    · rw [hlc2']
      rfl
    · unfold stepOk
      have hst : step (Op.submitResponse owner (challengeNonceAddr agent challenger n2) rh2 now2)
          (applyOp (Op.submitResponse owner (challengeNonceAddr agent challenger n1) rh1 now2)
            (applyOp (Op.createChallengeWithNonce challenger agent n2 q2 h2 now)
              (applyOp (Op.createChallengeWithNonce challenger agent n1 q1 h1 now) s))) =
          submitResponse owner (challengeNonceAddr agent challenger n2) rh2 now2
            (applyOp (Op.submitResponse owner (challengeNonceAddr agent challenger n1) rh1 now2)
              (applyOp (Op.createChallengeWithNonce challenger agent n2 q2 h2 now)
                (applyOp (Op.createChallengeWithNonce challenger agent n1 q1 h1 now) s))) := rfl
      rw [hst, hsub2]

/-- Witness for C4 on the fixture ledger: the occupied single-slot address
rejects a second creation, and nonce-indexed challenges 0 and 1 both
succeed and resolve independently. -/
theorem claim_C4_witness :
    createChallenge 3 wAgentAddr "q2" "h2" 150 wLedger = .error .AccountInUse ∧
    stepOk (Op.createChallengeWithNonce 3 wAgentAddr 0 "qa" "ha" 150) wLedger = true ∧
    stepOk (Op.createChallengeWithNonce 3 wAgentAddr 1 "qb" "hb" 150)
      (applyOp (Op.createChallengeWithNonce 3 wAgentAddr 0 "qa" "ha" 150) wLedger) = true := by
  constructor
  · have hcreate : createChallenge 3 wAgentAddr "What is 2 + 2?" "h4" 100
        ⟨some ⟨1, 1⟩, [(wAgentAddr, wAgent)], []⟩ = .ok wLedger := rfl
    exact claim_C4_dual_addressing.1 3 wAgentAddr "What is 2 + 2?" "h4" 100 "q2" "h2" 150
      ⟨some ⟨1, 1⟩, [(wAgentAddr, wAgent)], []⟩ wLedger hcreate
  · have h := claim_C4_dual_addressing.2 3 wAgentAddr wAgent 2 0 1 "qa" "ha" "qb" "hb"
      "ra" "rb" 150 200 wLedger (by decide) (by decide) (by decide) (by decide) (by decide)
      (by decide)
    exact ⟨h.1, h.2.1⟩

/-- Counterexample for C2 as stated: the reputation test
(src/tests/agent-registry.ts lines 171-209) drives `update_reputation`
directly with the admin authority and expects challengesPassed to reach 1
with no challenge ever resolved; after the corresponding sequence
(initialize, register, direct update_reputation(+100)) the agent's
counter sum is 1 while zero resolved challenges reference it, so
"challengesPassed + challengesFailed always equals the number of
resolved challenges referencing that agent" fails. -/
theorem claim_C2_counterexample :
    counterSumAt (run cexOps emptyLedger) (agentAddr 2 0) = 1 ∧
    resolvedChallengeCount (run cexOps emptyLedger) (agentAddr 2 0) = 0 ∧
    resCount cexOps emptyLedger (agentAddr 2 0) = 0 ∧
    ¬(1 : Nat) = 0 := by decide

/-- C2 (amended): for every agent and every sequence of operations, the
reputation score stays within [0, 10000] (the engine clamps); every
successful challenge resolution increases exactly the counter matching
the branch taken by exactly 1; and, over every operation sequence that
does not invoke the externally exposed `update_reputation` instruction
directly (the admin-gated call that also bumps the counters and falsifies
the unrestricted claim), challengesPassed + challengesFailed grows by
exactly the number of successful resolutions referencing the agent. -/
theorem claim_C2_reputation_invariants :
    (∀ (ops : List Op) (s : Ledger), RepOk s → RepOk (run ops s)) ∧
    (∀ (caller : Pubkey) (caddr : Addr) (rh : String) (now : Int) (s s' : Ledger),
      submitResponse caller caddr rh now s = .ok s' →
      ∃ c a, List.lookup caddr s.challenges = some c ∧
        List.lookup c.agent s.agents = some a ∧
        ((rh = c.expectedHash ∧
          List.lookup c.agent s'.agents = some { a with
            reputationScore := max 0 (min 10000 (a.reputationScore + 100)),
            challengesPassed := a.challengesPassed + 1, updatedAt := now }) ∨
         (rh ≠ c.expectedHash ∧
          List.lookup c.agent s'.agents = some { a with
            reputationScore := max 0 (min 10000 (a.reputationScore - 50)),
            challengesFailed := a.challengesFailed + 1, updatedAt := now }))) ∧
    (∀ (ops : List Op) (s : Ledger) (A : Addr), noDirectRepUpdate ops = true →
      counterSumAt (run ops s) A = counterSumAt s A + resCount ops s A) := by
  refine ⟨repOk_run, ?_, counterSumAt_run⟩
  intro caller caddr rh now s s' h
  rcases submitResponse_ok_inv h with ⟨c, a, hc, ha, _, _, _, _, _, hag'⟩
  refine ⟨c, a, hc, ha, ?_⟩
  have hlook : List.lookup c.agent s'.agents =
      some (applyReputationDelta a (if rh = c.expectedHash then passDelta else failDelta) now) := by
    rw [hag', lookup_updateAcct_self, ha]
    rfl
  by_cases hm : rh = c.expectedHash
  · left
    refine ⟨hm, ?_⟩
    rw [hlook, if_pos hm]
    unfold applyReputationDelta passDelta maxReputation
    rw [if_pos (show (0 : Int) < 100 by norm_num), if_pos (show (0 : Int) < 100 by norm_num)]
  · right
    refine ⟨hm, ?_⟩
    rw [hlook, if_neg hm]
    unfold applyReputationDelta failDelta maxReputation
    rw [if_neg (show ¬((0 : Int) < -50) by norm_num),
      if_neg (show ¬((0 : Int) < -50) by norm_num)]
    congr 1

/-- Witness for C2 on concrete data: the bounds invariant survives the
counterexample sequence, and the counter/resolution accounting holds for
a resolution-only sequence on the fixture ledger. -/
theorem claim_C2_witness :
    RepOk (run cexOps emptyLedger) ∧
    counterSumAt (run [Op.submitResponse 2 wChalAddr "h4" 200] wLedger) wAgentAddr =
      counterSumAt wLedger wAgentAddr +
        resCount [Op.submitResponse 2 wChalAddr "h4" 200] wLedger wAgentAddr := by
  constructor
  · exact claim_C2_reputation_invariants.1 cexOps emptyLedger
      (by intro p hp; simp [emptyLedger] at hp)
  · exact claim_C2_reputation_invariants.2.2 [Op.submitResponse 2 wChalAddr "h4" 200]
      wLedger wAgentAddr (by decide)

/-- C10: the challenge-creation side and the response-submission side
compute the answer fingerprint with the same pure function — the
lowercase hexadecimal SHA-256 digest of the UTF-8 plaintext — so the
on-ledger hash comparison resolves to ResolvedPass exactly when the two
plaintexts have equal SHA-256 digests; and what is sent to the ledger is
always the 64-character digest, never the plaintext. -/
theorem claim_C10_answer_hashing :
    hashAnswer = hashAnswerSubmitSide ∧
    (∀ p1 p2 : String, hashAnswerSubmitSide p1 = hashAnswer p2 ↔
      sha256 (utf8Bytes p1) = sha256 (utf8Bytes p2)) ∧
    (∀ p : String, (hashAnswer p).length = 64) ∧
    (∀ (caller : Pubkey) (caddr : Addr) (now : Int) (s : Ledger) (c : Challenge)
        (a : AgentAccount) (p1 p2 : String),
      List.lookup caddr s.challenges = some c →
      c.expectedHash = hashAnswer p2 →
      List.lookup c.agent s.agents = some a →
      caller = a.owner → c.status = .Pending → now ≤ c.expiresAt →
      List.lookup caddr
          (applyOp (Op.submitResponse caller caddr (hashAnswerSubmitSide p1) now) s).challenges =
        some { c with status := if sha256 (utf8Bytes p1) = sha256 (utf8Bytes p2)
                                then .ResolvedPass else .ResolvedFail }) := by
  have hsame : hashAnswer = hashAnswerSubmitSide := rfl
  refine ⟨hsame, ?_, ?_, ?_⟩
  · intro p1 p2
    rw [← hsame]
    exact hashAnswer_eq_iff p1 p2
  · intro p
    unfold hashAnswer
    rw [toHex_length, sha256_length]
  · intro caller caddr now s c a p1 p2 hc hexp ha hown hst htime
    have hres := @submitResponse_resolves caller caddr (hashAnswerSubmitSide p1) now s c a
      hc ha hown hst htime
    have happ := @applyOp_ok (Op.submitResponse caller caddr (hashAnswerSubmitSide p1) now) s _ hres
    rw [happ]
    show List.lookup caddr (updateAcct s.challenges caddr _) = _
    rw [lookup_updateAcct_self, hc]
    have hcond : (hashAnswerSubmitSide p1 = c.expectedHash) ↔
        (sha256 (utf8Bytes p1) = sha256 (utf8Bytes p2)) := by
      rw [hexp, ← hsame]
      exact hashAnswer_eq_iff p1 p2
    by_cases hd : sha256 (utf8Bytes p1) = sha256 (utf8Bytes p2)
    · rw [if_pos (hcond.mpr hd), if_pos hd]
      rfl
    · rw [if_neg (fun hcontra => hd (hcond.mp hcontra)), if_neg hd]
      rfl

/-- Witness for C10: submitting the digest of "5" against the stored
digest of "4" resolves the fixture challenge to ResolvedFail, and the
digest of "4" is 64 characters long. -/
theorem claim_C10_witness :
    List.lookup wChalAddr
        (applyOp (Op.submitResponse 2 wChalAddr (hashAnswerSubmitSide "5") 200)
          wShaLedger).challenges =
      some { wShaChallenge with status := .ResolvedFail } ∧
    (hashAnswer "4").length = 64 := by
  constructor
  · have h := claim_C10_answer_hashing.2.2.2 2 wChalAddr 200 wShaLedger wShaChallenge
      wAgent "5" "4" (by rfl) (by rfl) (by rfl) (by rfl) (by rfl) (by decide)
    rw [if_neg (by decide)] at h
    exact h
  · exact claim_C10_answer_hashing.2.2.1 "4"

/-- Validation of the SHA-256 embedding against the digest the scripts
compute for the correct demo answer "4"
(spec section 8, scenario: expected hash = SHA-256("4")). -/
theorem hashAnswer_four_vector :
    hashAnswer "4" = "4b227777d4dd1fc61c6f884f48641d02b4d121d3fd328cb08b5531fcacdabf8a" := by
  decide

/-- Validation of the SHA-256 embedding against the digest the scripts
compute for the wrong demo answer "5". -/
theorem hashAnswer_five_vector :
    hashAnswer "5" = "ef2d127de37b942baad06145e54b0c619a1f22327b2ebbcfbec78f5564afe39d" := by
  decide

end AgentPoi
